import Mathlib

/-!
# Name resolution against a catalog snapshot (`names_metadata.go`)

Shallow embedding of `internal/databases/postgres/names_metadata.go`.

Modelling conventions:

* a Go `string` is a `List Char` (a sequence of code points; both separators the
  code splits on, `/` and `.`, are single ASCII characters);
* a Go `map[K]V` is an association list read with `List.lookup`; the order of
  the list is the order in which `range` visits the map;
* a `uint32` identifier is a `Nat` (the code does no arithmetic on identifiers);
* a Go multi-value return `(a, b, err)` is a tuple whose last component is an
  `Option` holding the error, `none` standing for `nil`.
-/

namespace Postgres

/-- A Go string, as its sequence of characters. -/
abbrev GoString := List Char

/-- The type `DatabaseObjectsInfo`: the identifier of a database and the
identifiers of its tables by qualified name. -/
structure DatabaseObjectsInfo where
  Oid : Nat
  Tables : List (GoString × Nat)
  deriving DecidableEq, Repr

/-- The type `DatabasesByNames`: database entries by database name. -/
abbrev DatabasesByNames := List (GoString × DatabaseObjectsInfo)

/-- The three error types of the file, each with the text arguments it is built from. -/
inductive MetaError where
  /-- Built by `newMetaDatabaseNameError(databaseName)`. -/
  | metaDatabaseNameError (databaseName : GoString)
  /-- Built by `newMetaTableNameError(databaseName, tableName)`. -/
  | metaTableNameError (databaseName tableName : GoString)
  /-- Built by `newMetaIncorrectKeyError(key)`. -/
  | metaIncorrectKeyError (key : GoString)
  deriving DecidableEq, Repr

/-- The helper under `strings.Split(s, sep)` for a one-character separator: it
puts `c` in front of the first piece of an already split remainder. -/
def consFirst (c : Char) : List GoString → List GoString
  | [] => [[c]]
  | t :: ts => (c :: t) :: ts

/-- Go `strings.Split(s, sep)` for a one-character separator: the pieces of `s`
between the occurrences of `sep`, one more piece than there are occurrences. -/
def stringsSplit (sep : Char) : GoString → List GoString
  | [] => [[]]
  | c :: cs => if c = sep then [] :: stringsSplit sep cs else consFirst c (stringsSplit sep cs)

/-- The method `tryFormatTableName`. -/
def tryFormatTableName (table : GoString) : GoString × Bool :=
  match stringsSplit '.' table with
  | [t0] => ("public.".toList ++ t0, true)
  | [_, _] => (table, true)
  | _ => ([], false)

/-- The method `unpackKey`. `strings.Split` returns at least one piece, so the
first case, where the source would read `tokens[0]` of an empty slice, is never
reached (`stringsSplit_ne_nil`). -/
def unpackKey (key : GoString) : GoString × GoString × Option MetaError :=
  match stringsSplit '/' key with
  | [] => ([], [], none)
  | [t0] => (t0, [], none)
  | [t0, t1] =>
    match tryFormatTableName t1 with
    | (table, true) => (t0, table, none)
    | (_, false) => ([], [], some (.metaIncorrectKeyError key))
  | _ => ([], [], some (.metaIncorrectKeyError key))

/-- The method `Resolve`. -/
def Resolve (meta : DatabasesByNames) (key : GoString) : Nat × Nat × Option MetaError :=
  match unpackKey key with
  | (_, _, some err) => (0, 0, some err)
  | (database, table, none) =>
    match meta.lookup database with
    | some data =>
      if table = [] then (data.Oid, 0, none)
      else
        match data.Tables.lookup table with
        | some tableFile => (data.Oid, tableFile, none)
        | none => (0, 0, some (.metaTableNameError database table))
    | none => (0, 0, some (.metaDatabaseNameError database))

/-! ## The `regexp` package

`ResolveRegexp` calls Go's standard `regexp` package, which is not part of the
repository. The resolver is therefore embedded over an arbitrary engine
(`RegexpEngine`), and `goRegexp` is a concrete engine following the documented
behaviour of the package on the fragment of its syntax made of literal
characters, `.`, `*`, `^`, `$` and an unmatched `)`. The limits the package puts
on the size of a pattern are not modelled. -/

/-- The two operations of the `regexp` package the file uses: compiling a
pattern, which may fail, and `MatchString` on a compiled pattern. -/
structure RegexpEngine where
  Regexp : Type
  Failure : Type
  Compile : GoString → Except Failure Regexp
  MatchString : Regexp → GoString → Bool

/-- Go `strings.ReplaceAll(s, old, new)` for a one-character `old`. -/
def stringsReplaceAll (old : Char) (new : GoString) (s : GoString) : GoString :=
  s.flatMap fun c => if c = old then new else [c]

/-- Go `fmt.Sprintf("^%s$", s)`. -/
def sprintfAnchored (s : GoString) : GoString := '^' :: (s ++ ['$'])

/-- The Go assignment `m[k] = v` on a map. -/
def mapSet (m : List (Nat × List Nat)) (k : Nat) (v : List Nat) : List (Nat × List Nat) :=
  match m with
  | [] => [(k, v)]
  | (k', v') :: rest => if k' = k then (k, v) :: rest else (k', v') :: mapSet rest k v

/-- The Go expression `m[k]` on a map of slices: the stored slice, or the empty
(nil) slice when `k` is absent. -/
def mapIndex (m : List (Nat × List Nat)) (k : Nat) : List Nat :=
  (m.lookup k).getD []

/-- The inner loop of `ResolveRegexp` (source lines 59-63) over the tables of one
database: the identifier of every table whose name matches is appended to the slice of `dbOid`. -/
def restoreTables (isMatch : GoString → Bool) (dbOid : Nat)
    (tables : List (GoString × Nat)) (toRestore : List (Nat × List Nat)) :
    List (Nat × List Nat) :=
  tables.foldl
    (fun toRestore entry =>
      if isMatch entry.1 then mapSet toRestore dbOid (mapIndex toRestore dbOid ++ [entry.2])
      else toRestore)
    toRestore

/-- The body of the outer loop of `ResolveRegexp` (source lines 52-64) for one
database `db` with entry `dbInfo`; `table` is the table pattern text after the
replacement of `*`. -/
def restoreDatabase (dbMatch tableMatch : GoString → Bool) (table : GoString)
    (toRestore : List (Nat × List Nat)) (entry : GoString × DatabaseObjectsInfo) :
    List (Nat × List Nat) :=
  if dbMatch entry.1 then
    let toRestore := mapSet toRestore entry.2.Oid []
    if table = [] then
      mapSet toRestore entry.2.Oid (mapIndex toRestore entry.2.Oid ++ [0])
    else
      restoreTables tableMatch entry.2.Oid entry.2.Tables toRestore
  else toRestore

/-- The slice one visit of a database stores under its identifier: `[0]` for a
whole-database selection, the matching tables otherwise. -/
def visitResult (tableMatch : GoString → Bool) (table : GoString)
    (entry : GoString × DatabaseObjectsInfo) : List Nat :=
  if table = [] then [0]
  else (entry.2.Tables.filter fun t => tableMatch t.1).map fun t => t.2

/-- The method `ResolveRegexp`. The result `.error f` stands for the panic that
`regexp.MustCompile` raises when the pattern does not compile; `.ok (m, err)` is
a return of the mapping `m` and the error `err`. -/
def ResolveRegexp (E : RegexpEngine) (meta : DatabasesByNames) (key : GoString) :
    Except E.Failure (List (Nat × List Nat) × Option MetaError) :=
  match unpackKey key with
  | (_, _, some err) => .ok ([], some err)
  | (database, table, none) =>
    let toRestore : List (Nat × List Nat) := []
    let database := stringsReplaceAll '*' ".*".toList database
    let table := stringsReplaceAll '*' ".*".toList table
    match E.Compile (sprintfAnchored database) with
    | .error f => .error f
    | .ok databaseRegexp =>
      match E.Compile (sprintfAnchored table) with
      | .error f => .error f
      | .ok tableRegexp =>
        .ok (meta.foldl
          (restoreDatabase (E.MatchString databaseRegexp) (E.MatchString tableRegexp) table)
          toRestore, none)

/-! ### A concrete engine for a fragment of the Go syntax -/

/-- The single-position operators of the fragment. -/
inductive Atom where
  /-- A literal character. -/
  | literal (c : Char)
  /-- The pattern `.` without the `s` flag: any character but a line feed. -/
  | anyCharNotNL
  /-- The pattern `^` without the `m` flag: the beginning of the text. -/
  | beginText
  /-- The pattern `$` without the `m` flag: the end of the text. -/
  | endText
  deriving DecidableEq, Repr

/-- An operator alone, or under the repetition `*`. -/
inductive Node where
  | one (a : Atom)
  | star (a : Atom)
  deriving DecidableEq, Repr

/-- The outcomes of compiling other than success. The first three are syntax
errors of the `regexp` package; the last says that the pattern leaves the
fragment, which tells nothing about what the package does with it. -/
inductive CompileFailure where
  /-- The error `missing argument to repetition operator`. -/
  | missingRepeatArgument
  /-- The error `invalid nested repetition operator`. -/
  | invalidRepeatOp
  /-- The error `unexpected )`. -/
  | unexpectedParen
  /-- The character `c` is outside the fragment. -/
  | outsideFragment (c : Char)
  deriving DecidableEq, Repr

/-- The characters with a meaning in the pattern syntax, the ones
`regexp.QuoteMeta` escapes; every other character is a literal. -/
def isSpecial (c : Char) : Bool :=
  c ∈ "\\.+*?()|[]{}^$".toList

/-- The parser of the package, a single pass from left to right, on the
fragment: `stack` holds the operators read so far, the last one first, and
`lastRepeat` says whether the character just read was a repetition. -/
def parseLoop : GoString → List Node → Bool → Except CompileFailure (List Node)
  | [], stack, _ => .ok stack.reverse
  | c :: t, stack, lastRepeat =>
    if c = '*' then
      if lastRepeat then .error .invalidRepeatOp
      else
        match stack with
        | [] => .error .missingRepeatArgument
        | .one a :: rest => parseLoop t (.star a :: rest) true
        | .star a :: rest => parseLoop t (.star a :: rest) true
    else if c = '.' then parseLoop t (.one .anyCharNotNL :: stack) false
    else if c = '^' then parseLoop t (.one .beginText :: stack) false
    else if c = '$' then parseLoop t (.one .endText :: stack) false
    else if c = ')' then .error .unexpectedParen
    else if isSpecial c then .error (.outsideFragment c)
    else parseLoop t (.one (.literal c) :: stack) false

/-- Go `regexp.Compile` on the fragment. -/
def regexpCompile (pattern : GoString) : Except CompileFailure (List Node) :=
  parseLoop pattern [] false

/-- Whether an operator takes the character `x`; the two assertions take none. -/
def Atom.accepts : Atom → Char → Bool
  | .literal c, x => x = c
  | .anyCharNotNL, x => x ≠ '\n'
  | .beginText, _ => false
  | .endText, _ => false

/-- The repetition of a character test: `k` continues after zero or more
characters passing `p`; the flag says whether the position is the beginning of
the text. -/
def starLoop (p : Char → Bool) (k : Bool → GoString → Bool) : Bool → GoString → Bool
  | b, [] => k b []
  | b, x :: xs => k b (x :: xs) || (p x && starLoop p k false xs)

/-- Whether the concatenation of `nodes` matches a prefix of the text `s`;
`atBegin` says whether `s` starts at the beginning of the whole text. -/
def matchNodes : List Node → Bool → GoString → Bool
  | [] => fun _ _ => true
  | .one (.literal c) :: rest => fun _ s =>
    match s with
    | [] => false
    | x :: xs => x = c && matchNodes rest false xs
  | .one .anyCharNotNL :: rest => fun _ s =>
    match s with
    | [] => false
    | x :: xs => x ≠ '\n' && matchNodes rest false xs
  | .one .beginText :: rest => fun atBegin s => atBegin && matchNodes rest atBegin s
  | .one .endText :: rest => fun atBegin s => s.isEmpty && matchNodes rest atBegin s
  | .star (.literal c) :: rest => starLoop (Atom.accepts (.literal c)) (matchNodes rest)
  | .star .anyCharNotNL :: rest => starLoop (Atom.accepts .anyCharNotNL) (matchNodes rest)
  | .star .beginText :: rest => fun atBegin s => matchNodes rest atBegin s
  | .star .endText :: rest => fun atBegin s => matchNodes rest atBegin s

/-- The search for a match starting at some position of the text. -/
def searchFrom (nodes : List Node) : Bool → GoString → Bool
  | atBegin, [] => matchNodes nodes atBegin []
  | atBegin, x :: xs => matchNodes nodes atBegin (x :: xs) || searchFrom nodes false xs

/-- Go `(*Regexp).MatchString`: whether the text contains a match of the pattern. -/
def regexpMatchString (re : List Node) (s : GoString) : Bool :=
  searchFrom re true s

/-- The engine made of `regexpCompile` and `regexpMatchString`. -/
@[reducible]
def goRegexp : RegexpEngine where
  Regexp := List Node
  Failure := CompileFailure
  Compile := regexpCompile
  MatchString := regexpMatchString

end Postgres

namespace Postgres

/-! ## Concrete snapshots -/

/-- The snapshot of the wildcard examples: `db1` (identifier 1) with the tables
`public.a` (10) and `public.b` (11), and `db2` (identifier 2) with `public.a` (20). -/
def exampleSnapshot : DatabasesByNames :=
  [("db1".toList, ⟨1, [("public.a".toList, 10), ("public.b".toList, 11)]⟩),
   ("db2".toList, ⟨2, [("public.a".toList, 20)]⟩)]

/-- A snapshot whose only database, `a/b`, has the separator in its name. -/
def slashDatabaseSnapshot : DatabasesByNames :=
  [("a/b".toList, ⟨1, [("public.t".toList, 5)]⟩)]

/-- A snapshot whose only database has a line feed in its name. -/
def newlineSnapshot : DatabasesByNames :=
  [("a\nb".toList, ⟨1, []⟩)]

/-- A snapshot whose two databases, `a` and `b`, have the same identifier. -/
def sharedOidSnapshot : DatabasesByNames :=
  [("a".toList, ⟨2, []⟩), ("b".toList, ⟨2, []⟩)]

/-- A key read as a glob, in the words of the specification: each `*` stands
for zero or more characters, every other character stands for itself, and the
whole name is matched. The characters a `*` may stand for are those of `wild`:
all of them in the specification. -/
inductive GlobMatch (wild : Char → Prop) : GoString → GoString → Prop
  | nil : GlobMatch wild [] []
  | char (c : Char) (p s : GoString) :
      c ≠ '*' → GlobMatch wild p s → GlobMatch wild (c :: p) (c :: s)
  | star (t p s : GoString) :
      (∀ x ∈ t, wild x) → GlobMatch wild p s → GlobMatch wild ('*' :: p) (t ++ s)

/-- The operators the parser reads from a key of literal characters and `*`,
after the replacement of `*` by `.*`. -/
def globNodes (key : GoString) : List Node :=
  key.map fun c => if c = '*' then .star .anyCharNotNL else .one (.literal c)

/-- The snapshot of the leakage example: the database `db` (identifier 1) whose
only table is `publicXa` (identifier 5). -/
def leakSnapshot : DatabasesByNames :=
  [("db".toList, ⟨1, [("publicXa".toList, 5)]⟩)]

/-- A snapshot whose only table has the identifier 0. -/
def zeroTableSnapshot : DatabasesByNames :=
  [("db".toList, ⟨1, [("public.t".toList, 0)]⟩)]

/-- The example snapshot with its databases, and the tables of `db1`, in the
other order. -/
def exampleSnapshotReordered : DatabasesByNames :=
  [("db2".toList, ⟨2, [("public.a".toList, 20)]⟩),
   ("db1".toList, ⟨1, [("public.b".toList, 11), ("public.a".toList, 10)]⟩)]

/-- The operators the parser reads from a key of literal characters, `.` and
`*`, after the replacement of `*` by `.*`. -/
def keyNodes (key : GoString) : List Node :=
  key.map fun c =>
    if c = '*' then .star .anyCharNotNL
    else if c = '.' then .one .anyCharNotNL
    else .one (.literal c)

/-- Two visits of one database entry: the same name and identifier, and the
same tables in some order. -/
def SameEntry (e e' : GoString × DatabaseObjectsInfo) : Prop :=
  e.1 = e'.1 ∧ e.2.Oid = e'.2.Oid ∧ e.2.Tables.Perm e'.2.Tables

/-- Two visiting orders of one snapshot: the same database entries in some
order, each with its tables in some order. -/
def SameSnapshot (S S' : DatabasesByNames) : Prop :=
  ∃ T : DatabasesByNames, S.Perm T ∧ List.Forall₂ SameEntry T S'

/-- A snapshot whose only table, `public.x/y`, has the separator in its name. -/
def slashTableSnapshot : DatabasesByNames :=
  [("db".toList, ⟨1, [("public.x/y".toList, 5)]⟩)]

end Postgres

namespace Postgres

/-! ## Splitting -/

theorem stringsSplit_ne_nil (sep : Char) (s : GoString) : stringsSplit sep s ≠ [] := by
  induction s with
  | nil => simp [stringsSplit]
  | cons c cs ih =>
    unfold stringsSplit
    split
    · simp
    · cases h : stringsSplit sep cs with
      | nil => exact absurd h ih
      | cons t ts => simp [consFirst]

theorem stringsSplit_length (sep : Char) (s : GoString) :
    (stringsSplit sep s).length = s.count sep + 1 := by
  induction s with
  | nil => simp [stringsSplit]
  | cons c cs ih =>
    unfold stringsSplit
    by_cases h : c = sep
    · subst h; simp [ih]
    · rw [if_neg h]
      cases hs : stringsSplit sep cs with
      | nil => exact absurd hs (stringsSplit_ne_nil sep cs)
      | cons t ts =>
        rw [hs] at ih
        simp only [consFirst, List.length_cons] at ih ⊢
        rw [List.count_cons_of_ne (fun e => h e.symm)]
        exact ih

theorem stringsSplit_of_not_mem (sep : Char) (s : GoString) (h : sep ∉ s) :
    stringsSplit sep s = [s] := by
  induction s with
  | nil => simp [stringsSplit]
  | cons c cs ih =>
    have hc : c ≠ sep := fun e => h (by simp [e])
    have hcs : sep ∉ cs := fun e => h (by simp [e])
    unfold stringsSplit
    rw [if_neg hc, ih hcs]
    rfl

theorem stringsSplit_append (sep : Char) (d p : GoString) (h : sep ∉ d) :
    stringsSplit sep (d ++ sep :: p) = d :: stringsSplit sep p := by
  induction d with
  | nil => simp [stringsSplit]
  | cons c cs ih =>
    have hc : c ≠ sep := fun e => h (by simp [e])
    have hcs : sep ∉ cs := fun e => h (by simp [e])
    rw [List.cons_append, stringsSplit, if_neg hc, ih hcs]
    rfl

/-- A text splits into the pieces before and after its first separator. -/
theorem stringsSplit_cons_inv (sep : Char) (s t : GoString) (ts : List GoString)
    (h : stringsSplit sep s = t :: ts) :
    sep ∉ t ∧ ((ts = [] ∧ s = t) ∨ ∃ r, s = t ++ sep :: r ∧ stringsSplit sep r = ts) := by
  induction s generalizing t ts with
  | nil =>
    simp only [stringsSplit, List.cons.injEq] at h
    obtain ⟨rfl, rfl⟩ := h
    simp
  | cons c cs ih =>
    unfold stringsSplit at h
    by_cases hc : c = sep
    · rw [if_pos hc] at h
      simp only [List.cons.injEq] at h
      obtain ⟨rfl, rfl⟩ := h
      refine ⟨by simp, Or.inr ⟨cs, by simp [hc], rfl⟩⟩
    · rw [if_neg hc] at h
      cases hs : stringsSplit sep cs with
      | nil => exact absurd hs (stringsSplit_ne_nil sep cs)
      | cons u us =>
        rw [hs] at h
        simp only [consFirst, List.cons.injEq] at h
        obtain ⟨rfl, rfl⟩ := h
        obtain ⟨hu, hrest⟩ := ih u us hs
        refine ⟨?_, ?_⟩
        · simp only [List.mem_cons, not_or]
          exact ⟨fun e => hc e.symm, hu⟩
        · rcases hrest with ⟨h1, h2⟩ | ⟨r, h1, h2⟩
          · exact Or.inl ⟨h1, by rw [h2]⟩
          · exact Or.inr ⟨r, by rw [h1]; rfl, h2⟩

theorem count_eq_zero_of_not_mem (c : Char) (s : GoString) (h : c ∉ s) : s.count c = 0 :=
  List.count_eq_zero.mpr h

/-- A text with exactly one separator is a piece, the separator and a piece. -/
theorem exists_split_of_count_one (sep : Char) (s : GoString) (h : s.count sep = 1) :
    ∃ d p, s = d ++ sep :: p ∧ sep ∉ d ∧ sep ∉ p := by
  have hlen := stringsSplit_length sep s
  rw [h] at hlen
  cases hs : stringsSplit sep s with
  | nil => exact absurd hs (stringsSplit_ne_nil sep s)
  | cons t ts =>
    obtain ⟨ht, hrest⟩ := stringsSplit_cons_inv sep s t ts hs
    rcases hrest with ⟨h1, _⟩ | ⟨r, h1, h2⟩
    · rw [hs, h1] at hlen; simp at hlen
    · refine ⟨t, r, h1, ht, ?_⟩
      have hr := stringsSplit_length sep r
      rw [h2] at hr
      rw [hs] at hlen
      simp only [List.length_cons] at hlen
      have : r.count sep = 0 := by omega
      exact List.count_eq_zero.mp this

theorem count_append_sep (sep : Char) (d p : GoString) :
    (d ++ sep :: p).count sep = d.count sep + p.count sep + 1 := by
  simp [List.count_append, List.count_cons_self]
  omega

/-! ## The key parser -/

theorem tryFormatTableName_no_dot (t : GoString) (h : '.' ∉ t) :
    tryFormatTableName t = ("public.".toList ++ t, true) := by
  unfold tryFormatTableName
  rw [stringsSplit_of_not_mem '.' t h]

theorem tryFormatTableName_one_dot (t : GoString) (h : t.count '.' = 1) :
    tryFormatTableName t = (t, true) := by
  obtain ⟨a, b, rfl, ha, hb⟩ := exists_split_of_count_one '.' t h
  unfold tryFormatTableName
  rw [stringsSplit_append '.' a b ha, stringsSplit_of_not_mem '.' b hb]

theorem tryFormatTableName_many_dots (t : GoString) (h : 1 < t.count '.') :
    tryFormatTableName t = ([], false) := by
  have hlen := stringsSplit_length '.' t
  unfold tryFormatTableName
  cases hs : stringsSplit '.' t with
  | nil => rfl
  | cons a as =>
    cases as with
    | nil => rw [hs] at hlen; simp at hlen; omega
    | cons b bs =>
      cases bs with
      | nil => rw [hs] at hlen; simp at hlen; omega
      | cons c cs => rfl

/-- The flag of `tryFormatTableName` tells whether the table part has at most one dot. -/
theorem tryFormatTableName_ok_iff (t : GoString) :
    (tryFormatTableName t).2 = true ↔ t.count '.' ≤ 1 := by
  constructor
  · intro h
    by_contra hc
    rw [tryFormatTableName_many_dots t (by omega)] at h
    simp at h
  · intro h
    by_cases h0 : t.count '.' = 0
    · rw [tryFormatTableName_no_dot t (List.count_eq_zero.mp h0)]
    · rw [tryFormatTableName_one_dot t (by omega)]

theorem unpackKey_no_slash (key : GoString) (h : '/' ∉ key) :
    unpackKey key = (key, [], none) := by
  unfold unpackKey
  rw [stringsSplit_of_not_mem '/' key h]

theorem unpackKey_no_dot (d p : GoString) (hd : '/' ∉ d) (hp : '/' ∉ p) (h : '.' ∉ p) :
    unpackKey (d ++ '/' :: p) = (d, "public.".toList ++ p, none) := by
  unfold unpackKey
  rw [stringsSplit_append '/' d p hd, stringsSplit_of_not_mem '/' p hp]
  simp only [tryFormatTableName_no_dot p h]

theorem unpackKey_one_dot (d p : GoString) (hd : '/' ∉ d) (hp : '/' ∉ p)
    (h : p.count '.' = 1) : unpackKey (d ++ '/' :: p) = (d, p, none) := by
  unfold unpackKey
  rw [stringsSplit_append '/' d p hd, stringsSplit_of_not_mem '/' p hp]
  simp only [tryFormatTableName_one_dot p h]

theorem unpackKey_many_dots (d p : GoString) (hd : '/' ∉ d) (hp : '/' ∉ p)
    (h : 1 < p.count '.') :
    unpackKey (d ++ '/' :: p) = ([], [], some (.metaIncorrectKeyError (d ++ '/' :: p))) := by
  unfold unpackKey
  rw [stringsSplit_append '/' d p hd, stringsSplit_of_not_mem '/' p hp]
  simp only [tryFormatTableName_many_dots p h]

theorem unpackKey_many_slashes (key : GoString) (h : 1 < key.count '/') :
    unpackKey key = ([], [], some (.metaIncorrectKeyError key)) := by
  have hlen := stringsSplit_length '/' key
  unfold unpackKey
  cases hs : stringsSplit '/' key with
  | nil => exact absurd hs (stringsSplit_ne_nil '/' key)
  | cons a as =>
    cases as with
    | nil => rw [hs] at hlen; simp at hlen; omega
    | cons b bs =>
      cases bs with
      | nil => rw [hs] at hlen; simp at hlen; omega
      | cons c cs => rfl

/-- The three shapes of a key: no separator, one separator, more. -/
theorem key_shape (key : GoString) :
    '/' ∉ key ∨ (∃ d p, key = d ++ '/' :: p ∧ '/' ∉ d ∧ '/' ∉ p) ∨ 1 < key.count '/' := by
  by_cases h0 : key.count '/' = 0
  · exact Or.inl (List.count_eq_zero.mp h0)
  · by_cases h1 : key.count '/' = 1
    · exact Or.inr (Or.inl (exists_split_of_count_one '/' key h1))
    · exact Or.inr (Or.inr (by omega))

/-- The table of an accepted key with a separator is not the empty text. -/
theorem unpackKey_table_ne_nil (d p db tbl : GoString) (hd : '/' ∉ d) (hp : '/' ∉ p)
    (h : unpackKey (d ++ '/' :: p) = (db, tbl, none)) : db = d ∧ tbl ≠ [] := by
  by_cases h0 : p.count '.' = 0
  · rw [unpackKey_no_dot d p hd hp (List.count_eq_zero.mp h0)] at h
    simp only [Prod.mk.injEq, and_true] at h
    obtain ⟨rfl, rfl⟩ := h
    exact ⟨rfl, by simp⟩
  · by_cases h1 : p.count '.' = 1
    · rw [unpackKey_one_dot d p hd hp h1] at h
      simp only [Prod.mk.injEq, and_true] at h
      obtain ⟨rfl, rfl⟩ := h
      refine ⟨rfl, ?_⟩
      rintro rfl
      simp at h1
    · rw [unpackKey_many_dots d p hd hp (by omega)] at h
      simp at h

/-! ## Exact resolution -/

theorem Resolve_of_accepted (S : DatabasesByNames) (key db tbl : GoString)
    (h : unpackKey key = (db, tbl, none)) :
    Resolve S key =
      match S.lookup db with
      | some data =>
        if tbl = [] then (data.Oid, 0, none)
        else
          match data.Tables.lookup tbl with
          | some tableFile => (data.Oid, tableFile, none)
          | none => (0, 0, some (.metaTableNameError db tbl))
      | none => (0, 0, some (.metaDatabaseNameError db)) := by
  unfold Resolve
  rw [h]

theorem Resolve_of_rejected (S : DatabasesByNames) (key db tbl : GoString) (err : MetaError)
    (h : unpackKey key = (db, tbl, some err)) : Resolve S key = (0, 0, some err) := by
  unfold Resolve
  rw [h]

/-- The error of a rejected key is the incorrect-key error for that key. -/
theorem unpackKey_error (key : GoString) (err : MetaError)
    (h : (unpackKey key).2.2 = some err) : err = .metaIncorrectKeyError key := by
  rcases key_shape key with h0 | ⟨d, p, rfl, hd, hp⟩ | h2
  · rw [unpackKey_no_slash key h0] at h; simp at h
  · by_cases hdots : p.count '.' ≤ 1
    · by_cases h0 : p.count '.' = 0
      · rw [unpackKey_no_dot d p hd hp (List.count_eq_zero.mp h0)] at h; simp at h
      · rw [unpackKey_one_dot d p hd hp (by omega)] at h; simp at h
    · rw [unpackKey_many_dots d p hd hp (by omega)] at h
      simpa using h.symm
  · rw [unpackKey_many_slashes key h2] at h
    simpa using h.symm

/-- The keys the parser rejects: more than one separator, or one separator
followed by a part with more than one dot. -/
theorem unpackKey_rejects_iff (key : GoString) :
    (unpackKey key).2.2 ≠ none ↔
      (1 < key.count '/' ∨
        ∃ d p, key = d ++ '/' :: p ∧ '/' ∉ d ∧ '/' ∉ p ∧ 1 < p.count '.') := by
  rcases key_shape key with h0 | ⟨d, p, rfl, hd, hp⟩ | h2
  · rw [unpackKey_no_slash key h0]
    have hc : key.count '/' = 0 := List.count_eq_zero.mpr h0
    constructor
    · intro h; simp at h
    · rintro (h | ⟨d, p, rfl, -, -, -⟩)
      · omega
      · simp at h0
  · have hc : (d ++ '/' :: p).count '/' = 1 := by
      rw [count_append_sep, List.count_eq_zero.mpr hd, List.count_eq_zero.mpr hp]
    by_cases hdots : 1 < p.count '.'
    · rw [unpackKey_many_dots d p hd hp hdots]
      exact ⟨fun _ => Or.inr ⟨d, p, rfl, hd, hp, hdots⟩, fun _ => by simp⟩
    · have hacc : (unpackKey (d ++ '/' :: p)).2.2 = none := by
        by_cases h0 : p.count '.' = 0
        · rw [unpackKey_no_dot d p hd hp (List.count_eq_zero.mp h0)]
        · rw [unpackKey_one_dot d p hd hp (by omega)]
      rw [hacc]
      constructor
      · intro h; exact absurd rfl h
      · rintro (h | ⟨d', p', he, hd', hp', hdots'⟩)
        · omega
        · exfalso
          have h1 := stringsSplit_append '/' d p hd
          rw [he, stringsSplit_append '/' d' p' hd', stringsSplit_of_not_mem '/' p' hp',
            stringsSplit_of_not_mem '/' p hp] at h1
          simp only [List.cons.injEq, and_true] at h1
          rw [h1.2] at hdots'
          exact hdots hdots'
  · rw [unpackKey_many_slashes key h2]
    exact ⟨fun _ => Or.inl h2, fun _ => by simp⟩

/-- The error of `Resolve` is an incorrect-key error exactly for the keys the
parser rejects. -/
theorem Resolve_incorrectKey_iff (S : DatabasesByNames) (key : GoString) :
    (∃ k, (Resolve S key).2.2 = some (.metaIncorrectKeyError k)) ↔
      (unpackKey key).2.2 ≠ none := by
  rcases hu : unpackKey key with ⟨db, tbl, err⟩
  cases err with
  | some err =>
    rw [Resolve_of_rejected S key db tbl err hu]
    have he := unpackKey_error key err (by rw [hu])
    subst he
    exact ⟨fun _ => by simp, fun _ => ⟨key, rfl⟩⟩
  | none =>
    rw [Resolve_of_accepted S key db tbl hu]
    constructor
    · rintro ⟨k, hk⟩
      exfalso
      cases hl : S.lookup db with
      | none => rw [hl] at hk; simp at hk
      | some data =>
        rw [hl] at hk
        by_cases ht : tbl = []
        · simp [ht] at hk
        · cases hl2 : data.Tables.lookup tbl with
          | none => simp [ht, hl2] at hk
          | some o => simp [ht, hl2] at hk
    · intro h; exact absurd rfl h

/-- Claim C1, amended: for every snapshot and every database name `d` without
the separator `/` that is a key of the snapshot, `Resolve(d)` returns the
identifier of that database, the table identifier `0` and no error. -/
theorem resolve_database (S : DatabasesByNames) (d : GoString) (info : DatabaseObjectsInfo)
    (hd : '/' ∉ d) (hS : S.lookup d = some info) :
    Resolve S d = (info.Oid, 0, none) := by
  rw [Resolve_of_accepted S d d [] (unpackKey_no_slash d hd), hS]
  simp

/-- Witness of `resolve_database`: the database `db2` of the example snapshot. -/
theorem resolve_database_witness :
    '/' ∉ "db2".toList ∧
    exampleSnapshot.lookup "db2".toList = some ⟨2, [("public.a".toList, 20)]⟩ ∧
    Resolve exampleSnapshot "db2".toList = (2, 0, none) :=
  ⟨by decide, rfl, resolve_database exampleSnapshot "db2".toList _ (by decide) rfl⟩

/-- Claim C1 as stated fails: the database name `a/b` is a key of the snapshot,
and `Resolve("a/b")` fails, the name `a` being looked up instead. -/
theorem resolve_database_counterexample :
    slashDatabaseSnapshot.lookup "a/b".toList = some ⟨1, [("public.t".toList, 5)]⟩ ∧
    Resolve slashDatabaseSnapshot "a/b".toList =
      (0, 0, some (.metaDatabaseNameError "a".toList)) := by
  decide

/-- Claim C2, amended: for every snapshot, every database name `d` without `/`
that is a key of the snapshot and every table name `t` without `/` whose
normalised form `n` (`t` itself when it has one dot, `public.` followed by `t`
when it has none) is a key of the tables of `d`, `Resolve(d + "/" + t)` returns
the identifier of the database, the identifier of the table and no error. -/
theorem resolve_table (S : DatabasesByNames) (d t n : GoString) (info : DatabaseObjectsInfo)
    (oid : Nat) (hd : '/' ∉ d) (ht : '/' ∉ t)
    (hn : (t.count '.' = 1 ∧ n = t) ∨ (t.count '.' = 0 ∧ n = "public.".toList ++ t))
    (hS : S.lookup d = some info) (hT : info.Tables.lookup n = some oid) :
    Resolve S (d ++ "/".toList ++ t) = (info.Oid, oid, none) := by
  have hkey : d ++ "/".toList ++ t = d ++ '/' :: t := by simp
  have hu : unpackKey (d ++ '/' :: t) = (d, n, none) := by
    rcases hn with ⟨h1, rfl⟩ | ⟨h0, rfl⟩
    · exact unpackKey_one_dot d n hd ht h1
    · exact unpackKey_no_dot d t hd ht (List.count_eq_zero.mp h0)
  have hne : n ≠ [] := (unpackKey_table_ne_nil d t d n hd ht hu).2
  rw [hkey, Resolve_of_accepted S _ d n hu, hS]
  simp [hne, hT]

/-- Witness of `resolve_table`: the table `a` of `db1` in the example snapshot. -/
theorem resolve_table_witness :
    '/' ∉ "db1".toList ∧ '/' ∉ "a".toList ∧
    ("a".toList.count '.' = 0 ∧ "public.a".toList = "public.".toList ++ "a".toList) ∧
    exampleSnapshot.lookup "db1".toList =
      some ⟨1, [("public.a".toList, 10), ("public.b".toList, 11)]⟩ ∧
    Resolve exampleSnapshot ("db1".toList ++ "/".toList ++ "a".toList) = (1, 10, none) :=
  ⟨by decide, by decide, by decide, rfl,
    resolve_table exampleSnapshot "db1".toList "a".toList "public.a".toList
      ⟨1, [("public.a".toList, 10), ("public.b".toList, 11)]⟩ 10
      (by decide) (by decide) (Or.inr (by decide)) rfl rfl⟩

/-- Claim C2 as stated fails when a name holds the separator: with the database
`a/b` and its table `public.t`, `Resolve("a/b/t")` is an incorrect-key failure;
with the database `db` and its table `public.x/y`, so is `Resolve("db/x/y")`. -/
theorem resolve_table_counterexample :
    (slashDatabaseSnapshot.lookup "a/b".toList = some ⟨1, [("public.t".toList, 5)]⟩ ∧
      "t".toList.count '.' = 0 ∧
      List.lookup ("public.".toList ++ "t".toList) [("public.t".toList, 5)] = some 5 ∧
      Resolve slashDatabaseSnapshot ("a/b".toList ++ "/".toList ++ "t".toList) =
        (0, 0, some (.metaIncorrectKeyError "a/b/t".toList))) ∧
    (slashTableSnapshot.lookup "db".toList = some ⟨1, [("public.x/y".toList, 5)]⟩ ∧
      "x/y".toList.count '.' = 0 ∧
      List.lookup ("public.".toList ++ "x/y".toList) [("public.x/y".toList, 5)] = some 5 ∧
      Resolve slashTableSnapshot ("db".toList ++ "/".toList ++ "x/y".toList) =
        (0, 0, some (.metaIncorrectKeyError "db/x/y".toList))) := by
  decide

/-- Claim C3: for every snapshot, every database part `d` without `/` and every
bare table name `rel` with neither `/` nor `.`, `Resolve(d + "/" + rel)` and
`Resolve(d + "/public." + rel)` are the same result: the same identifiers, or the
same failure. -/
theorem resolve_normalisation (S : DatabasesByNames) (d rel : GoString)
    (hd : '/' ∉ d) (hrel : '/' ∉ rel) (hdot : '.' ∉ rel) :
    Resolve S (d ++ "/".toList ++ rel) = Resolve S (d ++ "/public.".toList ++ rel) := by
  have h1 : d ++ "/".toList ++ rel = d ++ '/' :: rel := by simp
  have h2 : d ++ "/public.".toList ++ rel = d ++ '/' :: ("public.".toList ++ rel) := by simp
  have hslash : '/' ∉ "public.".toList ++ rel := by
    simp only [List.mem_append, not_or]
    exact ⟨by decide, hrel⟩
  have hcount : ("public.".toList ++ rel).count '.' = 1 := by
    rw [List.count_append, List.count_eq_zero.mpr hdot]
    decide
  have hu1 := unpackKey_no_dot d rel hd hrel hdot
  have hu2 := unpackKey_one_dot d ("public.".toList ++ rel) hd hslash hcount
  rw [h1, h2, Resolve_of_accepted S _ _ _ hu1, Resolve_of_accepted S _ _ _ hu2]

/-- Witness of `resolve_normalisation`: `db1/a` and `db1/public.a`. -/
theorem resolve_normalisation_witness :
    '/' ∉ "db1".toList ∧ '/' ∉ "a".toList ∧ '.' ∉ "a".toList ∧
    Resolve exampleSnapshot ("db1".toList ++ "/".toList ++ "a".toList) =
      Resolve exampleSnapshot ("db1".toList ++ "/public.".toList ++ "a".toList) :=
  ⟨by decide, by decide, by decide,
    resolve_normalisation exampleSnapshot "db1".toList "a".toList
      (by decide) (by decide) (by decide)⟩

/-- Claim C4: for every snapshot and every key the parser accepts whose database
part is not a key of the snapshot, `Resolve` fails with the unknown-database
error for that database part, with or without a table part; in particular the
empty key fails so when the snapshot has no database with the empty name. -/
theorem resolve_unknown_database (S : DatabasesByNames) :
    (∀ key : GoString, (unpackKey key).2.2 = none → S.lookup (unpackKey key).1 = none →
      Resolve S key = (0, 0, some (.metaDatabaseNameError (unpackKey key).1))) ∧
    (S.lookup [] = none → Resolve S [] = (0, 0, some (.metaDatabaseNameError []))) := by
  have main : ∀ key : GoString, (unpackKey key).2.2 = none → S.lookup (unpackKey key).1 = none →
      Resolve S key = (0, 0, some (.metaDatabaseNameError (unpackKey key).1)) := by
    intro key hacc hdb
    rcases hu : unpackKey key with ⟨db, tbl, err⟩
    rw [hu] at hacc hdb
    simp only at hacc hdb
    subst hacc
    rw [Resolve_of_accepted S key db tbl hu, hdb]
  exact ⟨main, fun h => main [] rfl h⟩

/-- Witness of `resolve_unknown_database`: the keys `db3`, `db3/a` and the empty
key against the example snapshot. -/
theorem resolve_unknown_database_witness :
    Resolve exampleSnapshot "db3".toList = (0, 0, some (.metaDatabaseNameError "db3".toList)) ∧
    Resolve exampleSnapshot "db3/a".toList =
      (0, 0, some (.metaDatabaseNameError "db3".toList)) ∧
    Resolve exampleSnapshot [] = (0, 0, some (.metaDatabaseNameError [])) :=
  ⟨(resolve_unknown_database exampleSnapshot).1 "db3".toList rfl rfl,
    (resolve_unknown_database exampleSnapshot).1 "db3/a".toList rfl rfl,
    (resolve_unknown_database exampleSnapshot).2 rfl⟩

/-- Claim C5: for every snapshot and every accepted key with exactly one `/`, if
the database part is a key of the snapshot and the normalised table name is not
a key of the tables of that database, `Resolve` fails with the unknown-table
error for that database and normalised table name. -/
theorem resolve_unknown_table (S : DatabasesByNames) (key db tbl : GoString)
    (info : DatabaseObjectsInfo) (hone : key.count '/' = 1)
    (hu : unpackKey key = (db, tbl, none)) (hdb : S.lookup db = some info)
    (htbl : info.Tables.lookup tbl = none) :
    Resolve S key = (0, 0, some (.metaTableNameError db tbl)) := by
  obtain ⟨d, p, rfl, hd, hp⟩ := exists_split_of_count_one '/' key hone
  have hne : tbl ≠ [] := (unpackKey_table_ne_nil d p db tbl hd hp hu).2
  rw [Resolve_of_accepted S _ db tbl hu, hdb]
  simp [hne, htbl]

/-- Witness of `resolve_unknown_table`: the key `db1/c` against the example snapshot. -/
theorem resolve_unknown_table_witness :
    "db1/c".toList.count '/' = 1 ∧
    unpackKey "db1/c".toList = ("db1".toList, "public.c".toList, none) ∧
    Resolve exampleSnapshot "db1/c".toList =
      (0, 0, some (.metaTableNameError "db1".toList "public.c".toList)) :=
  ⟨by decide, rfl,
    resolve_unknown_table exampleSnapshot "db1/c".toList "db1".toList "public.c".toList
      ⟨1, [("public.a".toList, 10), ("public.b".toList, 11)]⟩ (by decide) rfl rfl rfl⟩

/-- Claim C6: for every snapshot and every key, `Resolve` fails with an
incorrect-key error if and only if the key has more than one `/`, or is a part
without `/`, one `/` and a part without `/` that has more than one `.`; the
snapshot plays no role, so this also holds when the database part is unknown. -/
theorem resolve_incorrect_key_iff (S : DatabasesByNames) (key : GoString) :
    (∃ k, (Resolve S key).2.2 = some (.metaIncorrectKeyError k)) ↔
      (1 < key.count '/' ∨
        ∃ d p, key = d ++ '/' :: p ∧ '/' ∉ d ∧ '/' ∉ p ∧ 1 < p.count '.') :=
  (Resolve_incorrectKey_iff S key).trans (unpackKey_rejects_iff key)

/-! ## The result map of pattern resolution -/

theorem lookup_cons_eq (k' a : Nat) (b : List Nat) (es : List (Nat × List Nat)) :
    List.lookup k' ((a, b) :: es) = if k' = a then some b else List.lookup k' es := by
  rw [List.lookup_cons]
  by_cases h : k' = a
  · subst h; simp
  · have hb : (k' == a) = false := by simpa using h
    rw [hb, if_neg h]

theorem lookup_mapSet (m : List (Nat × List Nat)) (k : Nat) (v : List Nat) (k' : Nat) :
    (mapSet m k v).lookup k' = if k' = k then some v else m.lookup k' := by
  induction m with
  | nil =>
    unfold mapSet
    rw [lookup_cons_eq]
  | cons e rest ih =>
    obtain ⟨a, b⟩ := e
    unfold mapSet
    by_cases ha : a = k
    · rw [if_pos ha, lookup_cons_eq, lookup_cons_eq]
      subst ha
      by_cases h : k' = a
      · rw [if_pos h, if_pos h]
      · rw [if_neg h, if_neg h, if_neg h]
    · rw [if_neg ha, lookup_cons_eq, lookup_cons_eq, ih]
      by_cases h : k' = a
      · rw [if_pos h, if_pos h, if_neg (fun e => ha (h.symm.trans e))]
      · rw [if_neg h, if_neg h]

theorem mapIndex_of_lookup (m : List (Nat × List Nat)) (k : Nat) (l : List Nat)
    (h : m.lookup k = some l) : mapIndex m k = l := by
  simp [mapIndex, h]

theorem restoreTables_lookup_other (isMatch : GoString → Bool) (dbOid : Nat)
    (tables : List (GoString × Nat)) (m : List (Nat × List Nat)) (k : Nat) (hk : k ≠ dbOid) :
    (restoreTables isMatch dbOid tables m).lookup k = m.lookup k := by
  induction tables generalizing m with
  | nil => rfl
  | cons t ts ih =>
    unfold restoreTables at ih ⊢
    rw [List.foldl_cons, ih]
    by_cases ht : isMatch t.1 = true
    · rw [if_pos ht, lookup_mapSet, if_neg hk]
    · rw [if_neg ht]

theorem restoreTables_lookup_self (isMatch : GoString → Bool) (dbOid : Nat)
    (tables : List (GoString × Nat)) (m : List (Nat × List Nat)) (l : List Nat)
    (h : m.lookup dbOid = some l) :
    (restoreTables isMatch dbOid tables m).lookup dbOid =
      some (l ++ (tables.filter fun t => isMatch t.1).map fun t => t.2) := by
  induction tables generalizing m l with
  | nil => simpa [restoreTables] using h
  | cons t ts ih =>
    unfold restoreTables at ih ⊢
    rw [List.foldl_cons]
    by_cases ht : isMatch t.1 = true
    · rw [if_pos ht, ih _ (l ++ [t.2])]
      · simp [List.filter_cons, ht]
      · rw [lookup_mapSet, if_pos rfl, mapIndex_of_lookup m dbOid l h]
    · rw [if_neg ht, ih _ l h]
      simp [List.filter_cons, ht]

theorem restoreDatabase_lookup (dbMatch tableMatch : GoString → Bool) (table : GoString)
    (m : List (Nat × List Nat)) (e : GoString × DatabaseObjectsInfo) (k : Nat) :
    (restoreDatabase dbMatch tableMatch table m e).lookup k =
      if dbMatch e.1 = true ∧ k = e.2.Oid then some (visitResult tableMatch table e)
      else m.lookup k := by
  by_cases hm : dbMatch e.1 = true
  · have hself : (mapSet m e.2.Oid []).lookup e.2.Oid = some [] := by
      rw [lookup_mapSet, if_pos rfl]
    by_cases ht : table = []
    · subst ht
      have hd : restoreDatabase dbMatch tableMatch [] m e =
          mapSet (mapSet m e.2.Oid []) e.2.Oid
            (mapIndex (mapSet m e.2.Oid []) e.2.Oid ++ [0]) := by
        simp [restoreDatabase, hm]
      rw [hd, lookup_mapSet, mapIndex_of_lookup _ _ [] hself]
      by_cases hk : k = e.2.Oid
      · rw [if_pos hk, if_pos ⟨hm, hk⟩]
        simp [visitResult]
      · rw [if_neg hk, if_neg (fun h => hk h.2), lookup_mapSet, if_neg hk]
    · have hd : restoreDatabase dbMatch tableMatch table m e =
          restoreTables tableMatch e.2.Oid e.2.Tables (mapSet m e.2.Oid []) := by
        simp [restoreDatabase, hm, ht]
      rw [hd]
      by_cases hk : k = e.2.Oid
      · subst hk
        rw [if_pos ⟨hm, rfl⟩, restoreTables_lookup_self _ _ _ _ [] hself]
        simp [visitResult, ht]
      · rw [if_neg (fun h => hk h.2), restoreTables_lookup_other _ _ _ _ _ hk, lookup_mapSet,
          if_neg hk]
  · have hd : restoreDatabase dbMatch tableMatch table m e = m := by
      simp [restoreDatabase, hm]
    rw [hd, if_neg (fun h => hm h.1)]

/-- An identifier no matching database has keeps the slice it had before the loop. -/
theorem foldl_restoreDatabase_lookup_other (dbMatch tableMatch : GoString → Bool)
    (table : GoString) (S : DatabasesByNames) (m : List (Nat × List Nat)) (k : Nat)
    (h : ¬ ∃ e ∈ S, dbMatch e.1 = true ∧ e.2.Oid = k) :
    (S.foldl (restoreDatabase dbMatch tableMatch table) m).lookup k = m.lookup k := by
  induction S generalizing m with
  | nil => rfl
  | cons e rest ih =>
    rw [List.foldl_cons, ih]
    · rw [restoreDatabase_lookup, if_neg]
      rintro ⟨hm, hk⟩
      exact h ⟨e, by simp, hm, hk.symm⟩
    · rintro ⟨e', he', hm, hk⟩
      exact h ⟨e', by simp [he'], hm, hk⟩

/-- The identifier of a matching database holds the slice of some matching
database with that identifier. -/
theorem foldl_restoreDatabase_lookup_match (dbMatch tableMatch : GoString → Bool)
    (table : GoString) (S : DatabasesByNames) (m : List (Nat × List Nat)) (k : Nat)
    (h : ∃ e ∈ S, dbMatch e.1 = true ∧ e.2.Oid = k) :
    ∃ e ∈ S, dbMatch e.1 = true ∧ e.2.Oid = k ∧
      (S.foldl (restoreDatabase dbMatch tableMatch table) m).lookup k =
        some (visitResult tableMatch table e) := by
  induction S generalizing m with
  | nil =>
    obtain ⟨e, he, _⟩ := h
    exact absurd he (List.not_mem_nil e)
  | cons e rest ih =>
    rw [List.foldl_cons]
    by_cases hr : ∃ e' ∈ rest, dbMatch e'.1 = true ∧ e'.2.Oid = k
    · obtain ⟨e', he', hm, hk, hl⟩ := ih (restoreDatabase dbMatch tableMatch table m e) hr
      exact ⟨e', by simp [he'], hm, hk, hl⟩
    · obtain ⟨e', he', hm, hk⟩ := h
      have hee : e' = e := by
        rcases List.mem_cons.mp he' with h1 | h1
        · exact h1
        · exact absurd ⟨e', h1, hm, hk⟩ hr
      subst hee
      refine ⟨e', by simp, hm, hk, ?_⟩
      rw [foldl_restoreDatabase_lookup_other _ _ _ _ _ _ hr, restoreDatabase_lookup,
        if_pos ⟨hm, hk.symm⟩]

/-- The keys of the result are the identifiers of the matching databases. -/
theorem foldl_restoreDatabase_isSome (dbMatch tableMatch : GoString → Bool)
    (table : GoString) (S : DatabasesByNames) (k : Nat) :
    ((S.foldl (restoreDatabase dbMatch tableMatch table) []).lookup k).isSome = true ↔
      ∃ e ∈ S, dbMatch e.1 = true ∧ e.2.Oid = k := by
  constructor
  · intro h
    by_contra hc
    rw [foldl_restoreDatabase_lookup_other _ _ _ _ _ _ hc] at h
    simp [List.lookup] at h
  · intro h
    obtain ⟨e, _, _, _, hl⟩ := foldl_restoreDatabase_lookup_match dbMatch tableMatch table S [] k h
    rw [hl]
    rfl

/-- With pairwise distinct identifiers, a matching database holds its own slice. -/
theorem foldl_restoreDatabase_lookup_self (dbMatch tableMatch : GoString → Bool)
    (table : GoString) (S : DatabasesByNames) (hS : (S.map fun e => e.2.Oid).Nodup)
    (e : GoString × DatabaseObjectsInfo) (he : e ∈ S) (hm : dbMatch e.1 = true) :
    (S.foldl (restoreDatabase dbMatch tableMatch table) []).lookup e.2.Oid =
      some (visitResult tableMatch table e) := by
  obtain ⟨e', he', _, hk, hl⟩ :=
    foldl_restoreDatabase_lookup_match dbMatch tableMatch table S [] e.2.Oid ⟨e, he, hm, rfl⟩
  have hee : e' = e := List.inj_on_of_nodup_map hS he' he hk
  rw [hl, hee]

theorem stringsReplaceAll_nil (old : Char) (new : GoString) :
    stringsReplaceAll old new [] = [] := rfl

theorem stringsReplaceAll_ne_nil (old : Char) (new s : GoString) (hnew : new ≠ [])
    (hs : s ≠ []) : stringsReplaceAll old new s ≠ [] := by
  cases s with
  | nil => exact absurd rfl hs
  | cons c cs =>
    unfold stringsReplaceAll
    rw [List.flatMap_cons]
    by_cases hc : c = old
    · rw [if_pos hc]
      cases new with
      | nil => exact absurd rfl hnew
      | cons a as => simp
    · rw [if_neg hc]; simp

/-- The return of `ResolveRegexp` on an accepted key both of whose patterns compile. -/
theorem ResolveRegexp_of_compiled (E : RegexpEngine) (S : DatabasesByNames)
    (key db tbl : GoString) (dre tre : E.Regexp) (hu : unpackKey key = (db, tbl, none))
    (hd : E.Compile (sprintfAnchored (stringsReplaceAll '*' ".*".toList db)) = .ok dre)
    (ht : E.Compile (sprintfAnchored (stringsReplaceAll '*' ".*".toList tbl)) = .ok tre) :
    ResolveRegexp E S key =
      .ok (S.foldl (restoreDatabase (E.MatchString dre) (E.MatchString tre)
        (stringsReplaceAll '*' ".*".toList tbl)) [], none) := by
  unfold ResolveRegexp
  rw [hu]
  simp only [hd, ht]

/-! ## Pattern resolution -/

/-- Claim C7 fails on the code: the parser accepts the key `)`, and
`ResolveRegexp` neither returns a mapping nor an error for it: compiling the
database pattern `^)$` fails and `regexp.MustCompile` panics. -/
theorem resolveRegexp_panics :
    (unpackKey ")".toList).2.2 = none ∧
    sprintfAnchored (stringsReplaceAll '*' ".*".toList (unpackKey ")".toList).1) = "^)$".toList ∧
    ResolveRegexp goRegexp exampleSnapshot ")".toList =
      .error CompileFailure.unexpectedParen :=
  ⟨rfl, rfl, rfl⟩

/-- Claim C8, amended: for every regexp engine, every snapshot and every key with
no `/` whose database pattern (the key with every `*` replaced by `.*`, between
`^` and `$`) compiles, as does the pattern `^$` of the empty table part,
`ResolveRegexp` returns, with no error, the mapping that sends the identifier of
each database whose name matches the database pattern to the list `[0]`, and
that has no other key. -/
theorem resolveRegexp_whole_database (E : RegexpEngine) (S : DatabasesByNames)
    (key : GoString) (dre tre : E.Regexp) (hkey : '/' ∉ key)
    (hd : E.Compile (sprintfAnchored (stringsReplaceAll '*' ".*".toList key)) = .ok dre)
    (ht : E.Compile (sprintfAnchored []) = .ok tre) :
    ∃ m, ResolveRegexp E S key = .ok (m, none) ∧
      ∀ oid : Nat,
        ((∃ e ∈ S, E.MatchString dre e.1 = true ∧ e.2.Oid = oid) → m.lookup oid = some [0]) ∧
        ((¬ ∃ e ∈ S, E.MatchString dre e.1 = true ∧ e.2.Oid = oid) → m.lookup oid = none) := by
  refine ⟨_, ResolveRegexp_of_compiled E S key key [] dre tre (unpackKey_no_slash key hkey) hd ht,
    fun oid => ⟨fun h => ?_, fun h => ?_⟩⟩
  · obtain ⟨e, _, _, _, hl⟩ := foldl_restoreDatabase_lookup_match (E.MatchString dre)
      (E.MatchString tre) (stringsReplaceAll '*' ".*".toList []) S [] oid h
    rw [hl]
    rfl
  · rw [foldl_restoreDatabase_lookup_other _ _ _ _ _ _ h]
    rfl

/-- Witness of `resolveRegexp_whole_database`: the key `db*` against the example
snapshot, with the engine `goRegexp`. -/
theorem resolveRegexp_whole_database_witness :
    '/' ∉ "db*".toList ∧
    goRegexp.Compile (sprintfAnchored (stringsReplaceAll '*' ".*".toList "db*".toList)) =
      .ok [.one .beginText, .one (.literal 'd'), .one (.literal 'b'), .star .anyCharNotNL,
        .one .endText] ∧
    goRegexp.Compile (sprintfAnchored []) = .ok [.one .beginText, .one .endText] ∧
    ∃ m, ResolveRegexp goRegexp exampleSnapshot "db*".toList = .ok (m, none) ∧
      ∀ oid : Nat,
        ((∃ e ∈ exampleSnapshot,
            goRegexp.MatchString [.one .beginText, .one (.literal 'd'), .one (.literal 'b'),
              .star .anyCharNotNL, .one .endText] e.1 = true ∧ e.2.Oid = oid) →
          m.lookup oid = some [0]) ∧
        ((¬ ∃ e ∈ exampleSnapshot,
            goRegexp.MatchString [.one .beginText, .one (.literal 'd'), .one (.literal 'b'),
              .star .anyCharNotNL, .one .endText] e.1 = true ∧ e.2.Oid = oid) →
          m.lookup oid = none) :=
  ⟨by decide, rfl, rfl,
    resolveRegexp_whole_database goRegexp exampleSnapshot "db*".toList _ _ (by decide) rfl rfl⟩

/-- Claim C8 as stated fails: the key `db)` has no `/`, and `ResolveRegexp`
returns no mapping for it, the database pattern `^db)$` failing to compile. -/
theorem resolveRegexp_whole_database_counterexample :
    '/' ∉ "db)".toList ∧
    ResolveRegexp goRegexp exampleSnapshot "db)".toList =
      .error CompileFailure.unexpectedParen ∧
    ¬ ∃ m, ResolveRegexp goRegexp exampleSnapshot "db)".toList = .ok (m, none) := by
  refine ⟨by decide, rfl, ?_⟩
  rintro ⟨m, hm⟩
  have h : ResolveRegexp goRegexp exampleSnapshot "db)".toList =
      .error CompileFailure.unexpectedParen := rfl
  rw [h] at hm
  cases hm

/-- Claim C9, amended: for every regexp engine, every snapshot whose database
identifiers are pairwise distinct and every accepted key with exactly one `/`
both of whose patterns compile, `ResolveRegexp` returns, with no error, a mapping
whose keys are exactly the identifiers of the databases whose name matches the
database pattern; the list of each such database is, up to order, the
identifiers of its tables whose name matches the table pattern; a database that
matches while none of its tables does has the empty list, and the identifier of
a database that does not match is not a key. -/
theorem resolveRegexp_tables (E : RegexpEngine) (S : DatabasesByNames)
    (key db tbl : GoString) (dre tre : E.Regexp)
    (hS : (S.map fun e => e.2.Oid).Nodup) (hone : key.count '/' = 1)
    (hu : unpackKey key = (db, tbl, none))
    (hd : E.Compile (sprintfAnchored (stringsReplaceAll '*' ".*".toList db)) = .ok dre)
    (ht : E.Compile (sprintfAnchored (stringsReplaceAll '*' ".*".toList tbl)) = .ok tre) :
    ∃ m, ResolveRegexp E S key = .ok (m, none) ∧
      (∀ oid : Nat, (m.lookup oid).isSome = true ↔
        ∃ e ∈ S, E.MatchString dre e.1 = true ∧ e.2.Oid = oid) ∧
      (∀ e ∈ S, E.MatchString dre e.1 = true →
        ∃ l, m.lookup e.2.Oid = some l ∧
          l.Perm ((e.2.Tables.filter fun t => E.MatchString tre t.1).map fun t => t.2)) ∧
      (∀ e ∈ S, E.MatchString dre e.1 = true →
        (∀ t ∈ e.2.Tables, E.MatchString tre t.1 = false) → m.lookup e.2.Oid = some []) ∧
      (∀ e ∈ S, E.MatchString dre e.1 = false → m.lookup e.2.Oid = none) := by
  obtain ⟨d, p, rfl, hd', hp'⟩ := exists_split_of_count_one '/' key hone
  have hne : tbl ≠ [] := (unpackKey_table_ne_nil d p db tbl hd' hp' hu).2
  have hne' : stringsReplaceAll '*' ".*".toList tbl ≠ [] :=
    stringsReplaceAll_ne_nil '*' ".*".toList tbl (by decide) hne
  have hself : ∀ e ∈ S, E.MatchString dre e.1 = true →
      (S.foldl (restoreDatabase (E.MatchString dre) (E.MatchString tre)
        (stringsReplaceAll '*' ".*".toList tbl)) []).lookup e.2.Oid =
      some ((e.2.Tables.filter fun t => E.MatchString tre t.1).map fun t => t.2) := by
    intro e he hm
    rw [foldl_restoreDatabase_lookup_self _ _ _ S hS e he hm]
    unfold visitResult
    rw [if_neg hne']
  refine ⟨_, ResolveRegexp_of_compiled E S _ db tbl dre tre hu hd ht,
    fun oid => foldl_restoreDatabase_isSome _ _ _ S oid,
    fun e he hm => ⟨_, hself e he hm, List.Perm.refl _⟩, fun e he hm hnone => ?_,
    fun e he hm => ?_⟩
  · rw [hself e he hm]
    have hf : (e.2.Tables.filter fun t => E.MatchString tre t.1) = [] := by
      rw [List.filter_eq_nil_iff]
      intro t ht'
      rw [hnone t ht']
      simp
    rw [hf]
    rfl
  · rw [foldl_restoreDatabase_lookup_other]
    · rfl
    · rintro ⟨e', he', hm', hk⟩
      have hee : e' = e := List.inj_on_of_nodup_map hS he' he hk
      rw [hee, hm] at hm'
      cases hm'

/-- Witness of `resolveRegexp_tables`: the key `db1/public.*` against the example
snapshot, with the engine `goRegexp`. -/
theorem resolveRegexp_tables_witness :
    (exampleSnapshot.map fun e => e.2.Oid).Nodup ∧
    "db1/public.*".toList.count '/' = 1 ∧
    unpackKey "db1/public.*".toList = ("db1".toList, "public.*".toList, none) ∧
    ResolveRegexp goRegexp exampleSnapshot "db1/public.*".toList =
      .ok ([(1, [10, 11])], none) ∧
    ∃ m, ResolveRegexp goRegexp exampleSnapshot "db1/public.*".toList = .ok (m, none) ∧
      (∀ oid : Nat, (m.lookup oid).isSome = true ↔
        ∃ e ∈ exampleSnapshot,
          regexpMatchString [.one .beginText, .one (.literal 'd'), .one (.literal 'b'),
            .one (.literal '1'), .one .endText] e.1 = true ∧ e.2.Oid = oid) :=
  ⟨by decide, by decide, rfl, rfl,
    (resolveRegexp_tables goRegexp exampleSnapshot "db1/public.*".toList "db1".toList
      "public.*".toList
      [.one .beginText, .one (.literal 'd'), .one (.literal 'b'), .one (.literal '1'),
        .one .endText]
      [.one .beginText, .one (.literal 'p'), .one (.literal 'u'), .one (.literal 'b'),
        .one (.literal 'l'), .one (.literal 'i'), .one (.literal 'c'), .one .anyCharNotNL,
        .star .anyCharNotNL, .one .endText]
      (by decide) (by decide) rfl rfl rfl).imp fun _ h => ⟨h.1, h.2.1⟩⟩

/-- Claim C9 as stated fails: the parser accepts the key `db1/)`, which has
exactly one `/`, and `ResolveRegexp` returns no mapping for it, the table pattern
`^public.)$` failing to compile. -/
theorem resolveRegexp_tables_counterexample :
    (exampleSnapshot.map fun e => e.2.Oid).Nodup ∧
    "db1/)".toList.count '/' = 1 ∧
    unpackKey "db1/)".toList = ("db1".toList, "public.)".toList, none) ∧
    ResolveRegexp goRegexp exampleSnapshot "db1/)".toList =
      .error CompileFailure.unexpectedParen ∧
    ¬ ∃ m, ResolveRegexp goRegexp exampleSnapshot "db1/)".toList = .ok (m, none) := by
  refine ⟨by decide, by decide, rfl, rfl, ?_⟩
  rintro ⟨m, hm⟩
  have h : ResolveRegexp goRegexp exampleSnapshot "db1/)".toList =
      .error CompileFailure.unexpectedParen := rfl
  rw [h] at hm
  cases hm

/-! ## The engine `goRegexp` on keys of literal characters and `*` -/

theorem isSpecial_of_mem (c : Char) (h : c ∈ "\\.+*?()|[]{}^$".toList) : isSpecial c = true := by
  unfold isSpecial
  exact decide_eq_true h

theorem not_special_ne (c : Char) (h : isSpecial c = false) :
    c ≠ '*' ∧ c ≠ '.' ∧ c ≠ '^' ∧ c ≠ '$' ∧ c ≠ ')' := by
  refine ⟨?_, ?_, ?_, ?_, ?_⟩ <;>
  · rintro rfl
    revert h
    decide

theorem isSpecial_of_isAlphanum (c : Char) (h : c.isAlphanum = true) : isSpecial c = false := by
  by_contra hc
  have hs : isSpecial c = true := by simpa using hc
  unfold isSpecial at hs
  have hm : c ∈ "\\.+*?()|[]{}^$".toList := of_decide_eq_true hs
  have hall : ∀ x ∈ "\\.+*?()|[]{}^$".toList, Char.isAlphanum x = false := by decide
  rw [hall c hm] at h
  cases h

theorem parseLoop_literal (c : Char) (t : GoString) (stack : List Node) (b : Bool)
    (h : isSpecial c = false) :
    parseLoop (c :: t) stack b = parseLoop t (.one (.literal c) :: stack) false := by
  obtain ⟨h1, h2, h3, h4, h5⟩ := not_special_ne c h
  rw [parseLoop.eq_def]
  simp only [if_neg h1, if_neg h2, if_neg h3, if_neg h4, if_neg h5, h]
  simp

theorem parseLoop_dot_star (t : GoString) (stack : List Node) (b : Bool) :
    parseLoop ('.' :: '*' :: t) stack b = parseLoop t (.star .anyCharNotNL :: stack) true := by
  have h1 : parseLoop ('.' :: '*' :: t) stack b =
      parseLoop ('*' :: t) (.one .anyCharNotNL :: stack) false := by
    rw [parseLoop.eq_def]
    simp
  have h2 : parseLoop ('*' :: t) (.one .anyCharNotNL :: stack) false =
      parseLoop t (.star .anyCharNotNL :: stack) true := by
    rw [parseLoop.eq_def]
    simp
  rw [h1, h2]

theorem parseLoop_key (key rest : GoString) (stack : List Node) (b : Bool)
    (hkey : ∀ c ∈ key, isSpecial c = false ∨ c = '*') :
    ∃ b', parseLoop (stringsReplaceAll '*' ".*".toList key ++ rest) stack b =
      parseLoop rest ((globNodes key).reverse ++ stack) b' := by
  induction key generalizing stack b with
  | nil => exact ⟨b, rfl⟩
  | cons c cs ih =>
    have hcs : ∀ x ∈ cs, isSpecial x = false ∨ x = '*' := fun x hx => hkey x (by simp [hx])
    by_cases hc : c = '*'
    · subst hc
      obtain ⟨b', hb'⟩ := ih (.star .anyCharNotNL :: stack) true hcs
      refine ⟨b', ?_⟩
      have h1 : stringsReplaceAll '*' ".*".toList ('*' :: cs) ++ rest =
          '.' :: '*' :: (stringsReplaceAll '*' ".*".toList cs ++ rest) := by
        simp [stringsReplaceAll]
      rw [h1, parseLoop_dot_star, hb']
      simp [globNodes]
    · have hsp : isSpecial c = false := (hkey c (by simp)).resolve_right hc
      obtain ⟨b', hb'⟩ := ih (.one (.literal c) :: stack) false hcs
      refine ⟨b', ?_⟩
      have h1 : stringsReplaceAll '*' ".*".toList (c :: cs) ++ rest =
          c :: (stringsReplaceAll '*' ".*".toList cs ++ rest) := by
        simp [stringsReplaceAll, hc]
      rw [h1, parseLoop_literal c _ stack b hsp, hb']
      simp [globNodes, hc]

/-- The pattern of a key of literal characters and `*` compiles, to the
operators of the key between the two anchors. -/
theorem regexpCompile_key (key : GoString)
    (hkey : ∀ c ∈ key, isSpecial c = false ∨ c = '*') :
    regexpCompile (sprintfAnchored (stringsReplaceAll '*' ".*".toList key)) =
      .ok (.one .beginText :: (globNodes key ++ [.one .endText])) := by
  have h1 : ∀ t : GoString, parseLoop ('^' :: t) [] false =
      parseLoop t [.one .beginText] false := by
    intro t
    rw [parseLoop.eq_def]
    simp
  have h2 : ∀ (stack : List Node) (b : Bool), parseLoop ['$'] stack b =
      .ok (.one .endText :: stack).reverse := by
    intro stack b
    rw [parseLoop.eq_def]
    simp only [if_neg (show ¬ '$' = '*' by decide), if_neg (show ¬ '$' = '.' by decide),
      if_neg (show ¬ '$' = '^' by decide), if_true]
    rw [parseLoop.eq_def]
  unfold regexpCompile sprintfAnchored
  obtain ⟨b', hb'⟩ := parseLoop_key key ['$'] [.one .beginText] false hkey
  rw [h1, hb', h2]
  simp

theorem searchFrom_beginText (r : List Node) (s : GoString) :
    searchFrom (.one .beginText :: r) false s = false := by
  induction s with
  | nil => simp [searchFrom, matchNodes]
  | cons x xs ih => simp [searchFrom, matchNodes, ih]

/-- A pattern that starts with `^` matches only from the beginning of the text. -/
theorem regexpMatchString_beginText (r : List Node) (s : GoString) :
    regexpMatchString (.one .beginText :: r) s = matchNodes r true s := by
  unfold regexpMatchString
  cases s with
  | nil => simp [searchFrom, matchNodes]
  | cons x xs => simp [searchFrom, matchNodes, searchFrom_beginText]

theorem starLoop_iff (p : Char → Bool) (k : Bool → GoString → Bool)
    (hk : ∀ b b' u, k b u = k b' u) (b : Bool) (s : GoString) :
    starLoop p k b s = true ↔
      ∃ t u, s = t ++ u ∧ (∀ x ∈ t, p x = true) ∧ k true u = true := by
  induction s generalizing b with
  | nil =>
    rw [starLoop]
    constructor
    · intro h
      exact ⟨[], [], rfl, by simp, by rw [hk true b]; exact h⟩
    · rintro ⟨t, u, h, -, hu⟩
      have ht : t = [] ∧ u = [] := by simpa using h.symm
      rw [ht.2] at hu
      rw [hk b true]; exact hu
  | cons x xs ih =>
    rw [starLoop, Bool.or_eq_true, Bool.and_eq_true, ih false]
    constructor
    · rintro (h | ⟨hx, t, u, rfl, ht, hu⟩)
      · exact ⟨[], x :: xs, rfl, by simp, by rw [hk true b]; exact h⟩
      · refine ⟨x :: t, u, rfl, ?_, hu⟩
        intro y hy
        rcases List.mem_cons.mp hy with rfl | hy
        · exact hx
        · exact ht y hy
    · rintro ⟨t, u, h, ht, hu⟩
      cases t with
      | nil =>
        left
        rw [List.nil_append] at h
        rw [h, hk b true]; exact hu
      | cons y ys =>
        right
        rw [List.cons_append, List.cons.injEq] at h
        obtain ⟨rfl, rfl⟩ := h
        exact ⟨ht x (by simp), ys, u, rfl, fun z hz => ht z (by simp [hz]), hu⟩

theorem GlobMatch_nil_iff (wild : Char → Prop) (s : GoString) :
    GlobMatch wild [] s ↔ s = [] := by
  constructor
  · intro h; cases h; rfl
  · rintro rfl; exact GlobMatch.nil

theorem GlobMatch_char_iff (wild : Char → Prop) (c : Char) (p s : GoString) (hc : c ≠ '*') :
    GlobMatch wild (c :: p) s ↔ ∃ s', s = c :: s' ∧ GlobMatch wild p s' := by
  constructor
  · intro h
    cases h with
    | char _ _ s' _ h' => exact ⟨s', rfl, h'⟩
    | star t _ u _ _ => exact absurd rfl hc
  · rintro ⟨s', rfl, h⟩
    exact GlobMatch.char c p s' hc h

theorem GlobMatch_star_iff (wild : Char → Prop) (p s : GoString) :
    GlobMatch wild ('*' :: p) s ↔
      ∃ t u, s = t ++ u ∧ (∀ x ∈ t, wild x) ∧ GlobMatch wild p u := by
  constructor
  · intro h
    cases h with
    | char _ _ s' hc _ => exact absurd rfl hc
    | star t _ u ht hu => exact ⟨t, u, rfl, ht, hu⟩
  · rintro ⟨t, u, rfl, ht, hu⟩
    exact GlobMatch.star t p u ht hu

/-- The operators of a key, followed by `$`, match a text from a position on
exactly when the key, read as a glob whose `*` stands for characters other than
the line feed, matches the text. -/
theorem matchNodes_globNodes (key : GoString) (b : Bool) (s : GoString) :
    matchNodes (globNodes key ++ [.one .endText]) b s = true ↔
      GlobMatch (fun x => x ≠ '\n') key s := by
  induction key generalizing b s with
  | nil =>
    rw [GlobMatch_nil_iff]
    cases s <;> simp [globNodes, matchNodes]
  | cons c cs ih =>
    by_cases hc : c = '*'
    · subst hc
      have hn : globNodes ('*' :: cs) ++ [Node.one Atom.endText] =
          .star .anyCharNotNL :: (globNodes cs ++ [.one .endText]) := by
        simp [globNodes]
      have hk : ∀ b b' u, matchNodes (globNodes cs ++ [.one .endText]) b u =
          matchNodes (globNodes cs ++ [.one .endText]) b' u := by
        intro b b' u
        rw [Bool.eq_iff_iff, ih, ih]
      rw [hn, matchNodes, starLoop_iff _ _ hk, GlobMatch_star_iff]
      constructor
      · rintro ⟨t, u, rfl, ht, hu⟩
        exact ⟨t, u, rfl, fun x hx => by simpa [Atom.accepts] using ht x hx, (ih true u).mp hu⟩
      · rintro ⟨t, u, rfl, ht, hu⟩
        exact ⟨t, u, rfl, fun x hx => by simpa [Atom.accepts] using ht x hx, (ih true u).mpr hu⟩
    · have hn : globNodes (c :: cs) ++ [Node.one Atom.endText] =
          .one (.literal c) :: (globNodes cs ++ [.one .endText]) := by
        simp [globNodes, hc]
      rw [hn, matchNodes, GlobMatch_char_iff _ c cs s hc]
      cases s with
      | nil => simp
      | cons x xs =>
        simp only [Bool.and_eq_true, decide_eq_true_eq, ih, List.cons.injEq]
        constructor
        · rintro ⟨rfl, h⟩
          exact ⟨xs, ⟨rfl, rfl⟩, h⟩
        · rintro ⟨s', ⟨rfl, rfl⟩, h⟩
          exact ⟨rfl, h⟩

/-- The name of a database matches the compiled pattern of a key of literal
characters and `*` exactly when the key, read as a glob whose `*` stands for
characters other than the line feed, matches the whole name. -/
theorem regexpMatchString_key (key name : GoString) :
    regexpMatchString (.one .beginText :: (globNodes key ++ [.one .endText])) name = true ↔
      GlobMatch (fun x => x ≠ '\n') key name := by
  rw [regexpMatchString_beginText, matchNodes_globNodes]

/-- Claim C10, amended: for every snapshot whose database identifiers are
pairwise distinct and every key made only of letters, digits and `*` (so with no
`/`), `ResolveRegexp` returns a mapping and no error, and the identifier of a
database is a key of the mapping if and only if the full name of the database
matches the key read as a glob, where each `*` stands for zero or more
characters other than the line feed and every other character stands for itself. -/
theorem resolveRegexp_glob (S : DatabasesByNames) (key : GoString)
    (hS : (S.map fun e => e.2.Oid).Nodup)
    (hkey : ∀ c ∈ key, c.isAlphanum = true ∨ c = '*') :
    ∃ m, ResolveRegexp goRegexp S key = .ok (m, none) ∧
      ∀ e ∈ S, ((m.lookup e.2.Oid).isSome = true ↔
        GlobMatch (fun x => x ≠ '\n') key e.1) := by
  have hlit : ∀ c ∈ key, isSpecial c = false ∨ c = '*' := fun c hc =>
    (hkey c hc).imp (isSpecial_of_isAlphanum c) id
  have hslash : '/' ∉ key := by
    intro h
    rcases hkey '/' h with h1 | h1
    · revert h1; decide
    · revert h1; decide
  have hd := regexpCompile_key key hlit
  have ht : goRegexp.Compile (sprintfAnchored (stringsReplaceAll '*' ".*".toList [])) =
      .ok [.one .beginText, .one .endText] := rfl
  refine ⟨_, ResolveRegexp_of_compiled goRegexp S key key [] _ _
    (unpackKey_no_slash key hslash) hd ht, fun e he => ?_⟩
  rw [foldl_restoreDatabase_isSome, ← regexpMatchString_key]
  constructor
  · rintro ⟨e', he', hm, hk⟩
    rw [← List.inj_on_of_nodup_map hS he' he hk]
    exact hm
  · intro hm
    exact ⟨e, he, hm, rfl⟩

/-- Witness of `resolveRegexp_glob`: the key `db*` against the example snapshot. -/
theorem resolveRegexp_glob_witness :
    (exampleSnapshot.map fun e => e.2.Oid).Nodup ∧
    (∀ c ∈ "db*".toList, c.isAlphanum = true ∨ c = '*') ∧
    ResolveRegexp goRegexp exampleSnapshot "db*".toList = .ok ([(1, [0]), (2, [0])], none) ∧
    ∃ m, ResolveRegexp goRegexp exampleSnapshot "db*".toList = .ok (m, none) ∧
      ∀ e ∈ exampleSnapshot, ((m.lookup e.2.Oid).isSome = true ↔
        GlobMatch (fun x => x ≠ '\n') "db*".toList e.1) :=
  ⟨by decide, by decide, rfl,
    resolveRegexp_glob exampleSnapshot "db*".toList (by decide) (by decide)⟩

/-- Claim C10 as stated fails twice. The key `a*b`, read as a glob whose `*`
stands for arbitrary characters, matches the database name made of `a`, a line
feed and `b`, and the identifier of that database is not a key of the result,
which is empty. And against two databases `a` and `b` with the same identifier
2, the key `a` gives a result with the key 2, the identifier of the database
`b`, whose name the key does not match. -/
theorem resolveRegexp_glob_counterexample :
    ((∀ c ∈ "a*b".toList, c.isAlphanum = true ∨ c = '*') ∧ '/' ∉ "a*b".toList ∧
      newlineSnapshot = [("a\nb".toList, ⟨1, []⟩)] ∧
      GlobMatch (fun _ => True) "a*b".toList "a\nb".toList ∧
      ResolveRegexp goRegexp newlineSnapshot "a*b".toList = .ok ([], none)) ∧
    ((∀ c ∈ "a".toList, c.isAlphanum = true ∨ c = '*') ∧ '/' ∉ "a".toList ∧
      sharedOidSnapshot = [("a".toList, ⟨2, []⟩), ("b".toList, ⟨2, []⟩)] ∧
      ¬ GlobMatch (fun _ => True) "a".toList "b".toList ∧
      ResolveRegexp goRegexp sharedOidSnapshot "a".toList = .ok ([(2, [0])], none)) := by
  refine ⟨⟨by decide, by decide, rfl, ?_, rfl⟩, ⟨by decide, by decide, rfl, ?_, rfl⟩⟩
  · exact GlobMatch.char 'a' _ _ (by decide)
      (GlobMatch.star ['\n'] _ _ (fun _ _ => trivial)
        (GlobMatch.char 'b' _ _ (by decide) GlobMatch.nil))
  · intro h
    obtain ⟨s', hs, _⟩ := (GlobMatch_char_iff _ 'a' [] _ (by decide)).mp h
    have hb : "b".toList = ['b'] := rfl
    rw [hb, List.cons.injEq] at hs
    exact absurd hs.1 (by decide)

/-! ## Properties of both resolvers -/

theorem mem_of_lookup {α β : Type} [BEq α] [LawfulBEq α] (k : α) (v : β) (l : List (α × β))
    (h : l.lookup k = some v) : (k, v) ∈ l := by
  induction l with
  | nil => simp [List.lookup] at h
  | cons e rest ih =>
    obtain ⟨a, b⟩ := e
    rw [List.lookup_cons] at h
    by_cases hk : (k == a) = true
    · rw [hk] at h
      have hka : k = a := by simpa using hk
      have hvb : b = v := by simpa using h
      rw [hka, hvb]
      exact List.mem_cons_self _ _
    · have hk' : (k == a) = false := by simpa using hk
      rw [hk'] at h
      exact List.mem_cons_of_mem _ (ih h)

/-- The three courses of `ResolveRegexp`, none of which looks at the snapshot
before the loop: the key is rejected, a pattern does not compile, or the loop runs. -/
theorem ResolveRegexp_cases (E : RegexpEngine) (key : GoString) :
    (∃ err, (unpackKey key).2.2 = some err ∧
      ∀ S, ResolveRegexp E S key = .ok ([], some err)) ∨
    (∃ f, (unpackKey key).2.2 = none ∧ ∀ S, ResolveRegexp E S key = .error f) ∨
    (∃ (dbMatch tableMatch : GoString → Bool) (table : GoString),
      (unpackKey key).2.2 = none ∧
      ∀ S, ResolveRegexp E S key =
        .ok (S.foldl (restoreDatabase dbMatch tableMatch table) [], none)) := by
  rcases hu : unpackKey key with ⟨db, tbl, err⟩
  cases err with
  | some err =>
    refine Or.inl ⟨err, rfl, fun S => ?_⟩
    unfold ResolveRegexp
    rw [hu]
  | none =>
    right
    cases hd : E.Compile (sprintfAnchored (stringsReplaceAll '*' ".*".toList db)) with
    | error f =>
      refine Or.inl ⟨f, rfl, fun S => ?_⟩
      unfold ResolveRegexp
      rw [hu]
      simp only [hd]
    | ok dre =>
      cases ht : E.Compile (sprintfAnchored (stringsReplaceAll '*' ".*".toList tbl)) with
      | error f =>
        refine Or.inl ⟨f, rfl, fun S => ?_⟩
        unfold ResolveRegexp
        rw [hu]
        simp only [hd, ht]
      | ok tre =>
        exact Or.inr ⟨_, _, _, rfl, fun S => ResolveRegexp_of_compiled E S key db tbl dre tre hu hd ht⟩

/-- Claim C12: for every regexp engine, every snapshot and every key the parser
rejects, `ResolveRegexp` returns the error of the parser, which is the
incorrect-key error for the key and the error `Resolve` returns, together with
an empty mapping. -/
theorem resolveRegexp_rejected (E : RegexpEngine) (S : DatabasesByNames) (key : GoString)
    (err : MetaError) (h : (unpackKey key).2.2 = some err) :
    ResolveRegexp E S key = .ok ([], some err) ∧ Resolve S key = (0, 0, some err) ∧
      err = .metaIncorrectKeyError key := by
  rcases hu : unpackKey key with ⟨db, tbl, e⟩
  rw [hu] at h
  simp only at h
  subst h
  refine ⟨?_, Resolve_of_rejected S key db tbl err hu, unpackKey_error key err (by rw [hu])⟩
  unfold ResolveRegexp
  rw [hu]

/-- Witness of `resolveRegexp_rejected`: the key `a/b/c` against the example snapshot. -/
theorem resolveRegexp_rejected_witness :
    (unpackKey "a/b/c".toList).2.2 = some (.metaIncorrectKeyError "a/b/c".toList) ∧
    ResolveRegexp goRegexp exampleSnapshot "a/b/c".toList =
      .ok ([], some (.metaIncorrectKeyError "a/b/c".toList)) ∧
    Resolve exampleSnapshot "a/b/c".toList =
      (0, 0, some (.metaIncorrectKeyError "a/b/c".toList)) ∧
    MetaError.metaIncorrectKeyError "a/b/c".toList = .metaIncorrectKeyError "a/b/c".toList :=
  ⟨rfl, resolveRegexp_rejected goRegexp exampleSnapshot "a/b/c".toList _ rfl⟩

/-- Claim C13: the parser on the keys it accepts. A key with no `/` gives the
key itself and the empty table; a key `d/p` with no `/` in `d` or `p` gives `d`
and `public.` followed by `p` when `p` has no dot, and `d` and `p` when `p` has
exactly one dot; and an accepted key has one of these shapes. The parser reads
nothing but the key: the method never reads its receiver, the snapshot, which
is no argument of `unpackKey` here. -/
theorem unpackKey_reference (key : GoString) :
    ('/' ∉ key → unpackKey key = (key, [], none)) ∧
    (∀ d p : GoString, key = d ++ "/".toList ++ p → '/' ∉ d → '/' ∉ p → '.' ∉ p →
      unpackKey key = (d, "public.".toList ++ p, none)) ∧
    (∀ d p : GoString, key = d ++ "/".toList ++ p → '/' ∉ d → '/' ∉ p → p.count '.' = 1 →
      unpackKey key = (d, p, none)) ∧
    ((unpackKey key).2.2 = none →
      '/' ∉ key ∨ ∃ d p : GoString, key = d ++ "/".toList ++ p ∧ '/' ∉ d ∧ '/' ∉ p ∧
        ('.' ∉ p ∨ p.count '.' = 1)) := by
  refine ⟨unpackKey_no_slash key, ?_, ?_, ?_⟩
  · rintro d p rfl hd hp hdot
    have hk : d ++ "/".toList ++ p = d ++ '/' :: p := by simp
    rw [hk]
    exact unpackKey_no_dot d p hd hp hdot
  · rintro d p rfl hd hp hdot
    have hk : d ++ "/".toList ++ p = d ++ '/' :: p := by simp
    rw [hk]
    exact unpackKey_one_dot d p hd hp hdot
  · intro hacc
    rcases key_shape key with h0 | ⟨d, p, rfl, hd, hp⟩ | h2
    · exact Or.inl h0
    · refine Or.inr ⟨d, p, by simp, hd, hp, ?_⟩
      by_cases h0 : p.count '.' = 0
      · exact Or.inl (List.count_eq_zero.mp h0)
      · by_cases h1 : p.count '.' = 1
        · exact Or.inr h1
        · rw [unpackKey_many_dots d p hd hp (by omega)] at hacc
          simp at hacc
    · rw [unpackKey_many_slashes key h2] at hacc
      simp at hacc

/-- Witness of `unpackKey_reference`: the keys `db1`, `db1/a` and `db1/public.a`. -/
theorem unpackKey_reference_witness :
    unpackKey "db1".toList = ("db1".toList, [], none) ∧
    unpackKey ("db1".toList ++ "/".toList ++ "a".toList) =
      ("db1".toList, "public.".toList ++ "a".toList, none) ∧
    unpackKey ("db1".toList ++ "/".toList ++ "public.a".toList) =
      ("db1".toList, "public.a".toList, none) :=
  ⟨(unpackKey_reference "db1".toList).1 (by decide),
    (unpackKey_reference _).2.1 "db1".toList "a".toList rfl (by decide) (by decide) (by decide),
    (unpackKey_reference _).2.2.1 "db1".toList "public.a".toList rfl (by decide) (by decide)
      (by decide)⟩

/-- The identifiers of a successful `Resolve`, read off the snapshot. -/
theorem Resolve_ok_inv (S : DatabasesByNames) (key : GoString) (d t : Nat)
    (h : Resolve S key = (d, t, none)) :
    ∃ db tbl data, unpackKey key = (db, tbl, none) ∧ S.lookup db = some data ∧
      data.Oid = d ∧ ((tbl = [] ∧ t = 0) ∨ (tbl ≠ [] ∧ data.Tables.lookup tbl = some t)) := by
  rcases hu : unpackKey key with ⟨db, tbl, err⟩
  cases err with
  | some err =>
    rw [Resolve_of_rejected S key db tbl err hu] at h
    simp at h
  | none =>
    rw [Resolve_of_accepted S key db tbl hu] at h
    cases hl : S.lookup db with
    | none => rw [hl] at h; simp at h
    | some data =>
      rw [hl] at h
      refine ⟨db, tbl, data, rfl, hl, ?_⟩
      by_cases ht : tbl = []
      · simp only [ht, if_true, Prod.mk.injEq, and_true] at h
        exact ⟨h.1, Or.inl ⟨ht, h.2.symm⟩⟩
      · simp only [ht, if_false] at h
        cases hl2 : data.Tables.lookup tbl with
        | none => rw [hl2] at h; simp at h
        | some o =>
          rw [hl2] at h
          simp only [Prod.mk.injEq, and_true] at h
          exact ⟨h.1, Or.inr ⟨ht, by rw [h.2]⟩⟩

/-- Claim C14: the resolvers invent no identifier. For every regexp engine,
snapshot and key, a successful `Resolve` returns the identifier of a database
entry of the snapshot with either 0 or the identifier of a table of that entry;
and every key of a mapping returned by `ResolveRegexp` is the identifier of a
database entry of the snapshot, every element of the list under that key being
0 or the identifier of a table of that entry. -/
theorem resolver_identifiers (E : RegexpEngine) (S : DatabasesByNames) (key : GoString) :
    (∀ d t : Nat, Resolve S key = (d, t, none) →
      ∃ e ∈ S, e.2.Oid = d ∧ (t = 0 ∨ ∃ r ∈ e.2.Tables, r.2 = t)) ∧
    (∀ (m : List (Nat × List Nat)) (err : Option MetaError),
      ResolveRegexp E S key = .ok (m, err) →
      ∀ (oid : Nat) (l : List Nat), m.lookup oid = some l →
        ∃ e ∈ S, e.2.Oid = oid ∧ ∀ x ∈ l, x = 0 ∨ ∃ r ∈ e.2.Tables, r.2 = x) := by
  constructor
  · intro d t h
    obtain ⟨db, tbl, data, -, hl, hd, ht⟩ := Resolve_ok_inv S key d t h
    refine ⟨(db, data), mem_of_lookup db data S hl, hd, ?_⟩
    rcases ht with ⟨-, h0⟩ | ⟨-, hl2⟩
    · exact Or.inl h0
    · exact Or.inr ⟨(tbl, t), mem_of_lookup tbl t data.Tables hl2, rfl⟩
  · intro m err h oid l hl
    rcases ResolveRegexp_cases E key with ⟨err', -, hr⟩ | ⟨f, -, hr⟩ |
      ⟨dbMatch, tableMatch, table, -, hr⟩
    · rw [hr S] at h
      injection h with h
      rw [Prod.mk.injEq] at h
      rw [← h.1] at hl
      simp [List.lookup] at hl
    · rw [hr S] at h
      cases h
    · rw [hr S] at h
      injection h with h
      rw [Prod.mk.injEq] at h
      rw [← h.1] at hl
      have hsome : ((S.foldl (restoreDatabase dbMatch tableMatch table) []).lookup oid).isSome
          = true := by rw [hl]; rfl
      obtain ⟨e, he, -, hk, hle⟩ := foldl_restoreDatabase_lookup_match dbMatch tableMatch table
        S [] oid ((foldl_restoreDatabase_isSome dbMatch tableMatch table S oid).mp hsome)
      rw [hl] at hle
      injection hle with hle
      refine ⟨e, he, hk, fun x hx => ?_⟩
      rw [hle] at hx
      unfold visitResult at hx
      by_cases ht : table = []
      · rw [if_pos ht] at hx
        exact Or.inl (by simpa using hx)
      · rw [if_neg ht] at hx
        obtain ⟨r, hr', hrx⟩ := List.mem_map.mp hx
        exact Or.inr ⟨r, (List.mem_filter.mp hr').1, hrx⟩

/-- Witness of `resolver_identifiers`: the key `db1/a` against the example snapshot. -/
theorem resolver_identifiers_witness :
    (∃ e ∈ exampleSnapshot, e.2.Oid = 1 ∧ (10 = 0 ∨ ∃ r ∈ e.2.Tables, r.2 = 10)) ∧
    (∃ e ∈ exampleSnapshot, e.2.Oid = 1 ∧ ∀ x ∈ [10], x = 0 ∨ ∃ r ∈ e.2.Tables, r.2 = x) :=
  ⟨(resolver_identifiers goRegexp exampleSnapshot "db1/a".toList).1 1 10 rfl,
    (resolver_identifiers goRegexp exampleSnapshot "db1/a".toList).2 [(1, [10])] none rfl
      1 [10] rfl⟩

/-- Claim C15: the dot of a table part matches a character other than a dot.
With the single database `db` (identifier 1) whose only table is `publicXa`
(identifier 5), `ResolveRegexp("db/public.a")` returns the mapping of 1 to `[5]`
and no error, while `Resolve("db/public.a")` fails with the unknown-table error. -/
theorem regexp_leakage :
    leakSnapshot = [("db".toList, ⟨1, [("publicXa".toList, 5)]⟩)] ∧
    ResolveRegexp goRegexp leakSnapshot "db/public.a".toList = .ok ([(1, [5])], none) ∧
    Resolve leakSnapshot "db/public.a".toList =
      (0, 0, some (.metaTableNameError "db".toList "public.a".toList)) :=
  ⟨rfl, rfl, rfl⟩

/-- Claim C16, amended: for every snapshot none of whose tables has the
identifier 0 and every key, if `Resolve` succeeds with the table identifier 0,
the key has no table part: it contains no `/`. -/
theorem resolve_sentinel (S : DatabasesByNames) (key : GoString) (d : Nat)
    (hz : ∀ e ∈ S, ∀ r ∈ e.2.Tables, r.2 ≠ 0) (h : Resolve S key = (d, 0, none)) :
    '/' ∉ key := by
  obtain ⟨db, tbl, data, hu, hl, -, ht⟩ := Resolve_ok_inv S key d 0 h
  rcases ht with ⟨ht, -⟩ | ⟨-, hl2⟩
  · rcases key_shape key with h0 | ⟨d', p, rfl, hd, hp⟩ | h2
    · exact h0
    · exact absurd ht (unpackKey_table_ne_nil d' p db tbl hd hp hu).2
    · rw [unpackKey_many_slashes key h2] at hu
      simp at hu
  · exact absurd rfl
      (hz (db, data) (mem_of_lookup db data S hl) (tbl, 0) (mem_of_lookup tbl 0 data.Tables hl2))

/-- Witness of `resolve_sentinel`: the key `db2` against the example snapshot. -/
theorem resolve_sentinel_witness :
    (∀ e ∈ exampleSnapshot, ∀ r ∈ e.2.Tables, r.2 ≠ 0) ∧
    Resolve exampleSnapshot "db2".toList = (2, 0, none) ∧ '/' ∉ "db2".toList :=
  ⟨by decide, rfl, resolve_sentinel exampleSnapshot "db2".toList 2 (by decide) rfl⟩

/-- Claim C16 as stated fails: with the database `db` whose table `public.t` has
the identifier 0, `Resolve("db/t")` succeeds with the table identifier 0, and
the key has a table part. -/
theorem resolve_sentinel_counterexample :
    zeroTableSnapshot = [("db".toList, ⟨1, [("public.t".toList, 0)]⟩)] ∧
    Resolve zeroTableSnapshot "db/t".toList = (1, 0, none) ∧ '/' ∈ "db/t".toList := by
  decide

/-- Claim C17: for every key the parser accepts, the table it returns is empty
exactly when the key has no `/`, and has exactly one dot otherwise; so the key
`db/` gives the table `public.`, not the empty table of a whole-database selector. -/
theorem unpackKey_table_shape (key db tbl : GoString)
    (hu : unpackKey key = (db, tbl, none)) :
    (tbl = [] ↔ '/' ∉ key) ∧ ('/' ∈ key → tbl.count '.' = 1) ∧
      unpackKey "db/".toList = ("db".toList, "public.".toList, none) := by
  refine ⟨?_, ?_, rfl⟩
  · rcases key_shape key with h0 | ⟨d, p, rfl, hd, hp⟩ | h2
    · rw [unpackKey_no_slash key h0] at hu
      simp only [Prod.mk.injEq, and_true] at hu
      exact ⟨fun _ => h0, fun _ => hu.2.symm⟩
    · have hne := (unpackKey_table_ne_nil d p db tbl hd hp hu).2
      exact ⟨fun h => absurd h hne, fun h => absurd (by simp) h⟩
    · rw [unpackKey_many_slashes key h2] at hu
      simp at hu
  · intro hmem
    rcases key_shape key with h0 | ⟨d, p, rfl, hd, hp⟩ | h2
    · exact absurd hmem h0
    · by_cases h0 : p.count '.' = 0
      · rw [unpackKey_no_dot d p hd hp (List.count_eq_zero.mp h0)] at hu
        simp only [Prod.mk.injEq, and_true] at hu
        rw [← hu.2, List.count_append, h0]
        decide
      · by_cases h1 : p.count '.' = 1
        · rw [unpackKey_one_dot d p hd hp h1] at hu
          simp only [Prod.mk.injEq, and_true] at hu
          rw [← hu.2]
          exact h1
        · rw [unpackKey_many_dots d p hd hp (by omega)] at hu
          simp at hu
    · rw [unpackKey_many_slashes key h2] at hu
      simp at hu

/-- Witness of `unpackKey_table_shape`: the key `db/`. -/
theorem unpackKey_table_shape_witness :
    unpackKey "db/".toList = ("db".toList, "public.".toList, none) ∧
    ("public.".toList = [] ↔ '/' ∉ "db/".toList) ∧
    ('/' ∈ "db/".toList → "public.".toList.count '.' = 1) ∧
    unpackKey "db/".toList = ("db".toList, "public.".toList, none) :=
  ⟨rfl, unpackKey_table_shape "db/".toList "db".toList "public.".toList rfl⟩

/-! ## Keys without a wildcard -/

theorem GlobMatch_literal (wild : Char → Prop) (key s : GoString)
    (hkey : ∀ c ∈ key, c ≠ '*') : GlobMatch wild key s ↔ s = key := by
  induction key generalizing s with
  | nil => exact GlobMatch_nil_iff wild s
  | cons c cs ih =>
    rw [GlobMatch_char_iff wild c cs s (hkey c (by simp))]
    constructor
    · rintro ⟨s', rfl, h⟩
      rw [(ih s' (fun x hx => hkey x (by simp [hx]))).mp h]
    · rintro rfl
      exact ⟨cs, rfl, (ih cs (fun x hx => hkey x (by simp [hx]))).mpr rfl⟩

theorem ne_of_lookup_none {β : Type} (k : GoString) (l : List (GoString × β))
    (h : l.lookup k = none) : ∀ e ∈ l, e.1 ≠ k := by
  induction l with
  | nil => intro e he; exact absurd he (List.not_mem_nil e)
  | cons e rest ih =>
    obtain ⟨a, b⟩ := e
    rw [List.lookup_cons] at h
    by_cases hk : (k == a) = true
    · rw [hk] at h
      cases h
    · have hk' : (k == a) = false := by simpa using hk
      rw [hk'] at h
      intro e he
      rcases List.mem_cons.mp he with rfl | he
      · intro hak
        have hak' : a = k := hak
        exact hk (by simp [hak'])
      · exact ih h e he

theorem foldl_restoreDatabase_of_no_match (dbMatch tableMatch : GoString → Bool)
    (table : GoString) (S : DatabasesByNames) (m : List (Nat × List Nat))
    (h : ∀ e ∈ S, dbMatch e.1 = false) :
    S.foldl (restoreDatabase dbMatch tableMatch table) m = m := by
  induction S generalizing m with
  | nil => rfl
  | cons e rest ih =>
    have he : restoreDatabase dbMatch tableMatch table m e = m := by
      simp [restoreDatabase, h e (by simp)]
    rw [List.foldl_cons, he, ih m (fun e' he' => h e' (by simp [he']))]

/-- When the database pattern matches one name only, the loop over a snapshot
with that name is the visit of its entry. -/
theorem foldl_restoreDatabase_unique (dbMatch tableMatch : GoString → Bool)
    (table key : GoString) (hdm : ∀ n, dbMatch n = true ↔ n = key) (S : DatabasesByNames)
    (hS : (S.map Prod.fst).Nodup) (info : DatabaseObjectsInfo)
    (hl : S.lookup key = some info) (m : List (Nat × List Nat)) :
    S.foldl (restoreDatabase dbMatch tableMatch table) m =
      restoreDatabase dbMatch tableMatch table m (key, info) := by
  induction S generalizing m with
  | nil => simp [List.lookup] at hl
  | cons e rest ih =>
    obtain ⟨a, b⟩ := e
    rw [List.map_cons, List.nodup_cons] at hS
    rw [List.lookup_cons] at hl
    rw [List.foldl_cons]
    by_cases hk : (key == a) = true
    · rw [hk] at hl
      have hka : key = a := by simpa using hk
      have hb : b = info := by simpa using hl
      subst hka hb
      apply foldl_restoreDatabase_of_no_match
      intro e' he'
      have hne : e'.1 ≠ key := by
        intro heq
        exact hS.1 (List.mem_map.mpr ⟨e', he', heq⟩)
      cases hd : dbMatch e'.1 with
      | false => rfl
      | true => exact absurd ((hdm e'.1).mp hd) hne
    · have hk' : (key == a) = false := by simpa using hk
      rw [hk'] at hl
      have hne : a ≠ key := by
        intro heq
        exact hk (by simp [heq])
      have hd : dbMatch a = false := by
        cases hd : dbMatch a with
        | false => rfl
        | true => exact absurd ((hdm a).mp hd) hne
      have he : restoreDatabase dbMatch tableMatch table m (a, b) = m := by
        simp [restoreDatabase, hd]
      rw [he]
      exact ih hS.2 hl m

/-- Claim C11: for every snapshot, a mapping with one entry for each database
name, and every key made only of letters and digits, `ResolveRegexp` returns no
error, with the mapping of the identifier of the database named by the key to
`[0]` when the snapshot has that database, and with the empty mapping when it
has not, the case in which `Resolve` fails with the unknown-database error. -/
theorem resolveRegexp_plain_key (S : DatabasesByNames) (key : GoString)
    (hS : (S.map Prod.fst).Nodup) (hkey : ∀ c ∈ key, c.isAlphanum = true) :
    (∀ info : DatabaseObjectsInfo, S.lookup key = some info →
      ResolveRegexp goRegexp S key = .ok ([(info.Oid, [0])], none)) ∧
    (S.lookup key = none →
      ResolveRegexp goRegexp S key = .ok ([], none) ∧
      Resolve S key = (0, 0, some (.metaDatabaseNameError key))) := by
  have hlit : ∀ c ∈ key, isSpecial c = false ∨ c = '*' := fun c hc =>
    Or.inl (isSpecial_of_isAlphanum c (hkey c hc))
  have hstar : ∀ c ∈ key, c ≠ '*' := by
    intro c hc heq
    have h := hkey c hc
    rw [heq] at h
    revert h
    decide
  have hslash : '/' ∉ key := by
    intro h
    have h1 := hkey '/' h
    revert h1
    decide
  have hu := unpackKey_no_slash key hslash
  have hd := regexpCompile_key key hlit
  have ht : goRegexp.Compile (sprintfAnchored (stringsReplaceAll '*' ".*".toList [])) =
      .ok [.one .beginText, .one .endText] := rfl
  have hr := ResolveRegexp_of_compiled goRegexp S key key [] _ _ hu hd ht
  have hdm : ∀ n, goRegexp.MatchString
      (.one .beginText :: (globNodes key ++ [.one .endText])) n = true ↔ n = key := by
    intro n
    exact (regexpMatchString_key key n).trans (GlobMatch_literal _ key n hstar)
  constructor
  · intro info hl
    rw [hr, foldl_restoreDatabase_unique _ _ _ key hdm S hS info hl]
    have hself : regexpMatchString
        (.one .beginText :: (globNodes key ++ [.one .endText])) key = true := (hdm key).mpr rfl
    simp [restoreDatabase, hself, stringsReplaceAll, mapSet, mapIndex, List.lookup]
  · intro hl
    refine ⟨?_, ?_⟩
    · rw [hr, foldl_restoreDatabase_of_no_match]
      intro e he
      have hne := ne_of_lookup_none key S hl e he
      cases hd' : goRegexp.MatchString
          (.one .beginText :: (globNodes key ++ [.one .endText])) e.1 with
      | false => rfl
      | true => exact absurd ((hdm e.1).mp hd') hne
    · rw [Resolve_of_accepted S key key [] hu, hl]

/-- Witness of `resolveRegexp_plain_key`: the keys `db1` and `db3` against the
example snapshot. -/
theorem resolveRegexp_plain_key_witness :
    (exampleSnapshot.map Prod.fst).Nodup ∧
    (∀ c ∈ "db1".toList, c.isAlphanum = true) ∧
    ResolveRegexp goRegexp exampleSnapshot "db1".toList = .ok ([(1, [0])], none) ∧
    (∀ c ∈ "db3".toList, c.isAlphanum = true) ∧
    ResolveRegexp goRegexp exampleSnapshot "db3".toList = .ok ([], none) ∧
    Resolve exampleSnapshot "db3".toList =
      (0, 0, some (.metaDatabaseNameError "db3".toList)) :=
  ⟨by decide, by decide,
    (resolveRegexp_plain_key exampleSnapshot "db1".toList (by decide) (by decide)).1
      ⟨1, [("public.a".toList, 10), ("public.b".toList, 11)]⟩ rfl,
    by decide,
    (resolveRegexp_plain_key exampleSnapshot "db3".toList (by decide) (by decide)).2 rfl⟩

/-! ## Pattern resolution of the keys exact resolution accepts -/

theorem parseLoop_dot (t : GoString) (stack : List Node) (b : Bool) :
    parseLoop ('.' :: t) stack b = parseLoop t (.one .anyCharNotNL :: stack) false := by
  rw [parseLoop.eq_def]
  simp

theorem parseLoop_keyNodes (key rest : GoString) (stack : List Node) (b : Bool)
    (hkey : ∀ c ∈ key, isSpecial c = false ∨ c = '*' ∨ c = '.') :
    ∃ b', parseLoop (stringsReplaceAll '*' ".*".toList key ++ rest) stack b =
      parseLoop rest ((keyNodes key).reverse ++ stack) b' := by
  induction key generalizing stack b with
  | nil => exact ⟨b, rfl⟩
  | cons c cs ih =>
    have hcs : ∀ x ∈ cs, isSpecial x = false ∨ x = '*' ∨ x = '.' :=
      fun x hx => hkey x (by simp [hx])
    by_cases hc : c = '*'
    · subst hc
      obtain ⟨b', hb'⟩ := ih (.star .anyCharNotNL :: stack) true hcs
      refine ⟨b', ?_⟩
      have h1 : stringsReplaceAll '*' ".*".toList ('*' :: cs) ++ rest =
          '.' :: '*' :: (stringsReplaceAll '*' ".*".toList cs ++ rest) := by
        simp [stringsReplaceAll]
      rw [h1, parseLoop_dot_star, hb']
      simp [keyNodes]
    · have h1 : stringsReplaceAll '*' ".*".toList (c :: cs) ++ rest =
          c :: (stringsReplaceAll '*' ".*".toList cs ++ rest) := by
        simp [stringsReplaceAll, hc]
      by_cases hdot : c = '.'
      · subst hdot
        obtain ⟨b', hb'⟩ := ih (.one .anyCharNotNL :: stack) false hcs
        refine ⟨b', ?_⟩
        rw [h1, parseLoop_dot, hb']
        simp [keyNodes]
      · have hsp : isSpecial c = false := by
          rcases hkey c (by simp) with h | h | h
          · exact h
          · exact absurd h hc
          · exact absurd h hdot
        obtain ⟨b', hb'⟩ := ih (.one (.literal c) :: stack) false hcs
        refine ⟨b', ?_⟩
        rw [h1, parseLoop_literal c _ stack b hsp, hb']
        simp [keyNodes, hc, hdot]

/-- The pattern of a text of literal characters, `.` and `*` compiles, to the
operators of the text between the two anchors. -/
theorem regexpCompile_keyNodes (key : GoString)
    (hkey : ∀ c ∈ key, isSpecial c = false ∨ c = '*' ∨ c = '.') :
    regexpCompile (sprintfAnchored (stringsReplaceAll '*' ".*".toList key)) =
      .ok (.one .beginText :: (keyNodes key ++ [.one .endText])) := by
  have h1 : ∀ t : GoString, parseLoop ('^' :: t) [] false =
      parseLoop t [.one .beginText] false := by
    intro t
    rw [parseLoop.eq_def]
    simp
  have h2 : ∀ (stack : List Node) (b : Bool), parseLoop ['$'] stack b =
      .ok (.one .endText :: stack).reverse := by
    intro stack b
    rw [parseLoop.eq_def]
    simp only [if_neg (show ¬ '$' = '*' by decide), if_neg (show ¬ '$' = '.' by decide),
      if_neg (show ¬ '$' = '^' by decide), if_true]
    rw [parseLoop.eq_def]
  unfold regexpCompile sprintfAnchored
  obtain ⟨b', hb'⟩ := parseLoop_keyNodes key ['$'] [.one .beginText] false hkey
  rw [h1, hb', h2]
  simp

theorem starLoop_of_continue (p : Char → Bool) (k : Bool → GoString → Bool) (b : Bool)
    (s : GoString) (h : k b s = true) : starLoop p k b s = true := by
  cases s with
  | nil => rw [starLoop]; exact h
  | cons x xs => rw [starLoop, h]; rfl

theorem starLoop_of_step (p : Char → Bool) (k : Bool → GoString → Bool) (b : Bool)
    (x : Char) (xs : GoString) (hx : p x = true) (h : starLoop p k false xs = true) :
    starLoop p k b (x :: xs) = true := by
  rw [starLoop, hx, h]
  simp

/-- The pattern of a text without a line feed matches the text itself: a
literal character and a dot take the character, and `.*` takes a `*`. -/
theorem matchNodes_keyNodes_self (key : GoString) (hnl : '\n' ∉ key) (b : Bool) :
    matchNodes (keyNodes key ++ [.one .endText]) b key = true := by
  induction key generalizing b with
  | nil => simp [keyNodes, matchNodes]
  | cons c cs ih =>
    have hc : c ≠ '\n' := fun h => hnl (by simp [h])
    have hcs : '\n' ∉ cs := fun h => hnl (by simp [h])
    by_cases hstar : c = '*'
    · subst hstar
      have hn : keyNodes ('*' :: cs) ++ [Node.one Atom.endText] =
          .star .anyCharNotNL :: (keyNodes cs ++ [.one .endText]) := by
        simp [keyNodes]
      rw [hn, matchNodes]
      apply starLoop_of_step
      · simp [Atom.accepts]
      · exact starLoop_of_continue _ _ _ _ (ih hcs false)
    · by_cases hdot : c = '.'
      · subst hdot
        have hn : keyNodes ('.' :: cs) ++ [Node.one Atom.endText] =
            .one .anyCharNotNL :: (keyNodes cs ++ [.one .endText]) := by
          simp [keyNodes]
        rw [hn, matchNodes]
        simp [ih hcs false]
      · have hn : keyNodes (c :: cs) ++ [Node.one Atom.endText] =
            .one (.literal c) :: (keyNodes cs ++ [.one .endText]) := by
          simp [keyNodes, hstar, hdot]
        rw [hn, matchNodes]
        simp [ih hcs false]

/-- Letters, digits, `_`, `.` and `*` are characters of the fragment, and none
is a line feed. -/
theorem allowed_char (c : Char)
    (h : c.isAlphanum = true ∨ c = '_' ∨ c = '.' ∨ c = '*') :
    (isSpecial c = false ∨ c = '*' ∨ c = '.') ∧ c ≠ '\n' := by
  rcases h with h | rfl | rfl | rfl
  · refine ⟨Or.inl (isSpecial_of_isAlphanum c h), ?_⟩
    rintro rfl
    revert h
    decide
  · exact ⟨Or.inl (by decide), by decide⟩
  · exact ⟨Or.inr (Or.inr rfl), by decide⟩
  · exact ⟨Or.inr (Or.inl rfl), by decide⟩

/-- The two parts of an accepted key keep the characters of the key, the
separator apart, with those of `public.` in front of a bare table name. -/
theorem unpackKey_chars (P : Char → Prop) (key db tbl : GoString)
    (hpub : ∀ c ∈ "public.".toList, P c) (hkey : ∀ c ∈ key, P c ∨ c = '/')
    (hu : unpackKey key = (db, tbl, none)) : (∀ c ∈ db, P c) ∧ (∀ c ∈ tbl, P c) := by
  have hpart : ∀ part : GoString, '/' ∉ part → (∀ c ∈ part, c ∈ key) → ∀ c ∈ part, P c := by
    intro part hno hsub c hc
    rcases hkey c (hsub c hc) with h | h
    · exact h
    · rw [h] at hc
      exact absurd hc hno
  rcases key_shape key with h0 | ⟨d, p, rfl, hd, hp⟩ | h2
  · rw [unpackKey_no_slash key h0] at hu
    simp only [Prod.mk.injEq, and_true] at hu
    rw [← hu.1, ← hu.2]
    exact ⟨hpart key h0 (fun c hc => hc), fun c hc => absurd hc (List.not_mem_nil c)⟩
  · have hPd := hpart d hd (fun c hc => by simp [hc])
    have hPp := hpart p hp (fun c hc => by simp [hc])
    by_cases h0 : p.count '.' = 0
    · rw [unpackKey_no_dot d p hd hp (List.count_eq_zero.mp h0)] at hu
      simp only [Prod.mk.injEq, and_true] at hu
      rw [← hu.1, ← hu.2]
      refine ⟨hPd, fun c hc => ?_⟩
      rcases List.mem_append.mp hc with h | h
      · exact hpub c h
      · exact hPp c h
    · by_cases h1 : p.count '.' = 1
      · rw [unpackKey_one_dot d p hd hp h1] at hu
        simp only [Prod.mk.injEq, and_true] at hu
        rw [← hu.1, ← hu.2]
        exact ⟨hPd, hPp⟩
      · rw [unpackKey_many_dots d p hd hp (by omega)] at hu
        simp at hu
  · rw [unpackKey_many_slashes key h2] at hu
    simp at hu

/-- Claim C18: for every snapshot whose database identifiers are pairwise
distinct and every key made only of letters, digits, `_`, `.`, `*` and `/`, if
`Resolve` succeeds with the identifiers `d` and `t`, then `ResolveRegexp`
returns a mapping and no error, `d` is a key of the mapping and the list under
`d` contains `t`. -/
theorem resolveRegexp_extends_resolve (S : DatabasesByNames) (key : GoString) (d t : Nat)
    (hS : (S.map fun e => e.2.Oid).Nodup)
    (hkey : ∀ c ∈ key, c.isAlphanum = true ∨ c = '_' ∨ c = '.' ∨ c = '*' ∨ c = '/')
    (h : Resolve S key = (d, t, none)) :
    ∃ (m : List (Nat × List Nat)) (l : List Nat),
      ResolveRegexp goRegexp S key = .ok (m, none) ∧ m.lookup d = some l ∧ t ∈ l := by
  obtain ⟨db, tbl, data, hu, hl, hd, ht⟩ := Resolve_ok_inv S key d t h
  have hchars := unpackKey_chars
    (fun c => c.isAlphanum = true ∨ c = '_' ∨ c = '.' ∨ c = '*') key db tbl (by decide)
    (fun c hc => by
      rcases hkey c hc with h1 | h1 | h1 | h1 | h1
      · exact Or.inl (Or.inl h1)
      · exact Or.inl (Or.inr (Or.inl h1))
      · exact Or.inl (Or.inr (Or.inr (Or.inl h1)))
      · exact Or.inl (Or.inr (Or.inr (Or.inr h1)))
      · exact Or.inr h1) hu
  have hdbc := regexpCompile_keyNodes db (fun c hc => (allowed_char c (hchars.1 c hc)).1)
  have htbc := regexpCompile_keyNodes tbl (fun c hc => (allowed_char c (hchars.2 c hc)).1)
  have hdbnl : '\n' ∉ db := fun hc => (allowed_char _ (hchars.1 _ hc)).2 rfl
  have htbnl : '\n' ∉ tbl := fun hc => (allowed_char _ (hchars.2 _ hc)).2 rfl
  have hdbm : goRegexp.MatchString (.one .beginText :: (keyNodes db ++ [.one .endText])) db
      = true := by
    show regexpMatchString _ db = true
    rw [regexpMatchString_beginText]
    exact matchNodes_keyNodes_self db hdbnl true
  have htbm : goRegexp.MatchString (.one .beginText :: (keyNodes tbl ++ [.one .endText])) tbl
      = true := by
    show regexpMatchString _ tbl = true
    rw [regexpMatchString_beginText]
    exact matchNodes_keyNodes_self tbl htbnl true
  have hmem : (db, data) ∈ S := mem_of_lookup db data S hl
  have hlook := foldl_restoreDatabase_lookup_self
    (goRegexp.MatchString (.one .beginText :: (keyNodes db ++ [.one .endText])))
    (goRegexp.MatchString (.one .beginText :: (keyNodes tbl ++ [.one .endText])))
    (stringsReplaceAll '*' ".*".toList tbl) S hS (db, data) hmem hdbm
  refine ⟨_, visitResult
    (goRegexp.MatchString (.one .beginText :: (keyNodes tbl ++ [.one .endText])))
    (stringsReplaceAll '*' ".*".toList tbl) (db, data),
    ResolveRegexp_of_compiled goRegexp S key db tbl _ _ hu hdbc htbc, ?_, ?_⟩
  · rw [← hd]
    exact hlook
  · unfold visitResult
    rcases ht with ⟨ht0, ht1⟩ | ⟨htne, hl2⟩
    · rw [ht0, ht1]
      simp [stringsReplaceAll]
    · rw [if_neg (stringsReplaceAll_ne_nil '*' ".*".toList tbl (by decide) htne)]
      exact List.mem_map.mpr ⟨(tbl, t),
        List.mem_filter.mpr ⟨mem_of_lookup tbl t data.Tables hl2, htbm⟩, rfl⟩

/-- Witness of `resolveRegexp_extends_resolve`: the key `db1/public.a` against
the example snapshot. -/
theorem resolveRegexp_extends_resolve_witness :
    (exampleSnapshot.map fun e => e.2.Oid).Nodup ∧
    (∀ c ∈ "db1/public.a".toList,
      c.isAlphanum = true ∨ c = '_' ∨ c = '.' ∨ c = '*' ∨ c = '/') ∧
    Resolve exampleSnapshot "db1/public.a".toList = (1, 10, none) ∧
    ResolveRegexp goRegexp exampleSnapshot "db1/public.a".toList = .ok ([(1, [10])], none) ∧
    ∃ (m : List (Nat × List Nat)) (l : List Nat),
      ResolveRegexp goRegexp exampleSnapshot "db1/public.a".toList = .ok (m, none) ∧
      m.lookup 1 = some l ∧ 10 ∈ l :=
  ⟨by decide, by decide, rfl, rfl,
    resolveRegexp_extends_resolve exampleSnapshot "db1/public.a".toList 1 10
      (by decide) (by decide) rfl⟩

/-! ## The order of the visits -/

theorem visitResult_perm (tableMatch : GoString → Bool) (table : GoString)
    (e e' : GoString × DatabaseObjectsInfo) (h : SameEntry e e') :
    (visitResult tableMatch table e).Perm (visitResult tableMatch table e') := by
  unfold visitResult
  by_cases ht : table = []
  · rw [if_pos ht, if_pos ht]
  · rw [if_neg ht, if_neg ht]
    exact (h.2.2.filter _).map _

theorem forall2_mem_left {α β : Type} {R : α → β → Prop} {l : List α} {l' : List β}
    (h : List.Forall₂ R l l') : ∀ a ∈ l, ∃ b ∈ l', R a b := by
  induction h with
  | nil => intro a ha; exact absurd ha (List.not_mem_nil a)
  | cons hab _ ih =>
    intro a ha
    rcases List.mem_cons.mp ha with rfl | ha
    · exact ⟨_, List.mem_cons_self _ _, hab⟩
    · obtain ⟨b, hb, hr⟩ := ih a ha
      exact ⟨b, List.mem_cons_of_mem _ hb, hr⟩

theorem forall2_mem_right {α β : Type} {R : α → β → Prop} {l : List α} {l' : List β}
    (h : List.Forall₂ R l l') : ∀ b ∈ l', ∃ a ∈ l, R a b := by
  induction h with
  | nil => intro b hb; exact absurd hb (List.not_mem_nil b)
  | cons hab _ ih =>
    intro b hb
    rcases List.mem_cons.mp hb with rfl | hb
    · exact ⟨_, List.mem_cons_self _ _, hab⟩
    · obtain ⟨a, ha, hr⟩ := ih b hb
      exact ⟨a, List.mem_cons_of_mem _ ha, hr⟩

theorem sameEntry_oids {T S' : DatabasesByNames} (h : List.Forall₂ SameEntry T S') :
    (T.map fun e => e.2.Oid) = S'.map fun e => e.2.Oid := by
  induction h with
  | nil => rfl
  | cons hab _ ih => rw [List.map_cons, List.map_cons, ih, hab.2.1]

/-- Two visiting orders of a snapshot with pairwise distinct identifiers leave,
under every identifier, no list or two lists with the same elements. -/
theorem foldl_restoreDatabase_sameSnapshot (dbMatch tableMatch : GoString → Bool)
    (table : GoString) (S S' : DatabasesByNames) (hS : (S.map fun e => e.2.Oid).Nodup)
    (h : SameSnapshot S S') (oid : Nat) :
    ((S.foldl (restoreDatabase dbMatch tableMatch table) []).lookup oid = none ∧
      (S'.foldl (restoreDatabase dbMatch tableMatch table) []).lookup oid = none) ∨
    ∃ l l', (S.foldl (restoreDatabase dbMatch tableMatch table) []).lookup oid = some l ∧
      (S'.foldl (restoreDatabase dbMatch tableMatch table) []).lookup oid = some l' ∧
      l.Perm l' := by
  obtain ⟨T, hperm, hfa⟩ := h
  have hS' : (S'.map fun e => e.2.Oid).Nodup := by
    rw [← sameEntry_oids hfa]
    exact ((hperm.map _).nodup_iff).mp hS
  by_cases hex : ∃ e ∈ S, dbMatch e.1 = true ∧ e.2.Oid = oid
  · obtain ⟨e, he, hm, hk⟩ := hex
    obtain ⟨e', he', hsame⟩ := forall2_mem_left hfa e (hperm.mem_iff.mp he)
    have hm' : dbMatch e'.1 = true := by rw [← hsame.1]; exact hm
    have hk' : e'.2.Oid = oid := by rw [← hsame.2.1]; exact hk
    refine Or.inr ⟨visitResult tableMatch table e, visitResult tableMatch table e', ?_, ?_,
      visitResult_perm tableMatch table e e' hsame⟩
    · rw [← hk]
      exact foldl_restoreDatabase_lookup_self dbMatch tableMatch table S hS e he hm
    · rw [← hk']
      exact foldl_restoreDatabase_lookup_self dbMatch tableMatch table S' hS' e' he' hm'
  · refine Or.inl ⟨?_, ?_⟩
    · rw [foldl_restoreDatabase_lookup_other _ _ _ _ _ _ hex]
      rfl
    · rw [foldl_restoreDatabase_lookup_other]
      · rfl
      · rintro ⟨e', he', hm', hk'⟩
        obtain ⟨e, he, hsame⟩ := forall2_mem_right hfa e' he'
        refine hex ⟨e, hperm.mem_iff.mpr he, ?_, ?_⟩
        · rw [hsame.1]; exact hm'
        · rw [hsame.2.1]; exact hk'

/-- Claim C19: for every regexp engine, every key and every two visiting orders
`S` and `S'` of a snapshot whose database identifiers are pairwise distinct (the
same database entries in some order, each with its tables in some order),
`ResolveRegexp` ends the same way on both: with the same panic, or with the same
error, or with two mappings that have the same keys and, under each key, lists
that are permutations of one another. -/
theorem resolveRegexp_order_independent (E : RegexpEngine) (S S' : DatabasesByNames)
    (key : GoString) (hS : (S.map fun e => e.2.Oid).Nodup) (hsame : SameSnapshot S S') :
    (∀ f, ResolveRegexp E S key = .error f → ResolveRegexp E S' key = .error f) ∧
    (∀ (m : List (Nat × List Nat)) (err : Option MetaError),
      ResolveRegexp E S key = .ok (m, err) →
      ∃ m', ResolveRegexp E S' key = .ok (m', err) ∧
        ∀ oid : Nat, (m.lookup oid = none ∧ m'.lookup oid = none) ∨
          ∃ l l', m.lookup oid = some l ∧ m'.lookup oid = some l' ∧ l.Perm l') := by
  rcases ResolveRegexp_cases E key with ⟨err', -, hr⟩ | ⟨f', -, hr⟩ |
    ⟨dbMatch, tableMatch, table, -, hr⟩
  · constructor
    · intro f h
      rw [hr S] at h
      cases h
    · intro m err h
      rw [hr S] at h
      injection h with h
      rw [Prod.mk.injEq] at h
      refine ⟨[], by rw [hr S', h.2], fun oid => Or.inl ⟨?_, rfl⟩⟩
      rw [← h.1]
      rfl
  · constructor
    · intro f h
      rw [hr S] at h
      rw [hr S']
      exact h
    · intro m err h
      rw [hr S] at h
      cases h
  · constructor
    · intro f h
      rw [hr S] at h
      cases h
    · intro m err h
      rw [hr S] at h
      injection h with h
      rw [Prod.mk.injEq] at h
      refine ⟨_, by rw [hr S', h.2], fun oid => ?_⟩
      rw [← h.1]
      exact foldl_restoreDatabase_sameSnapshot dbMatch tableMatch table S S' hS hsame oid

/-- Witness of `resolveRegexp_order_independent`: the key `db1/public.*` against
the example snapshot in its two orders. -/
theorem resolveRegexp_order_independent_witness :
    (exampleSnapshot.map fun e => e.2.Oid).Nodup ∧
    SameSnapshot exampleSnapshot exampleSnapshotReordered ∧
    ResolveRegexp goRegexp exampleSnapshot "db1/public.*".toList =
      .ok ([(1, [10, 11])], none) ∧
    ResolveRegexp goRegexp exampleSnapshotReordered "db1/public.*".toList =
      .ok ([(1, [11, 10])], none) ∧
    ∃ m', ResolveRegexp goRegexp exampleSnapshotReordered "db1/public.*".toList =
        .ok (m', none) ∧
      ∀ oid : Nat, (List.lookup oid [(1, [10, 11])] = none ∧ m'.lookup oid = none) ∨
        ∃ l l', List.lookup oid [(1, [10, 11])] = some l ∧ m'.lookup oid = some l' ∧
          l.Perm l' :=
  have hsame : SameSnapshot exampleSnapshot exampleSnapshotReordered :=
    ⟨[("db2".toList, ⟨2, [("public.a".toList, 20)]⟩),
      ("db1".toList, ⟨1, [("public.a".toList, 10), ("public.b".toList, 11)]⟩)],
      List.Perm.swap _ _ [],
      List.Forall₂.cons ⟨rfl, rfl, List.Perm.refl _⟩
        (List.Forall₂.cons ⟨rfl, rfl, List.Perm.swap _ _ []⟩ List.Forall₂.nil)⟩
  ⟨by decide, hsame, rfl, rfl,
    (resolveRegexp_order_independent goRegexp exampleSnapshot exampleSnapshotReordered
      "db1/public.*".toList (by decide) hsame).2 [(1, [10, 11])] none rfl⟩

end Postgres
